import Mathlib

/- Batteries marks the rational arithmetic operations `@[irreducible]`,
which blocks `decide` on concrete scores; restore default reducibility
for this file so concrete instances evaluate. -/
attribute [local semireducible] Rat.add Rat.mul Rat.sub Rat.inv Rat.ofScientific

/-!
Verification development for the suspicious-activity detection engine
(`app/models.py`, `app/graph_service.py`, `app/ai_service.py`, `app/routes.py`).

The Python code is shallowly embedded:
* floats become `ℚ` (all score arithmetic in the source is exact decimal
  arithmetic over small literals; cosine similarity, which genuinely needs
  square roots, is valued in `ℝ`),
* `datetime` values become `ℤ` (seconds); `timedelta.days` becomes
  flooring division by 86400, matching Python's floor semantics,
* Python dicts become association lists with replace-or-append update,
  preserving insertion order and key uniqueness exactly like `dict`,
* the `networkx.DiGraph` becomes a node list plus an edge list keyed by the
  ordered pair `(src, dst)`; `add_edge` on an existing pair replaces the
  edge attributes, which is the `DiGraph` behaviour (no parallel edges),
* open metadata mappings (`identifiers`, `metadata`) and purely cosmetic
  formatted strings (pattern descriptions, hash-based pattern ids) carry no
  logic in the source and are abstracted: descriptions/ids are kept as
  plain strings built without float formatting.
-/

/-- `RiskLevel` enum from `app/models.py`. -/
inductive RiskLevel where
  | low | medium | high | critical
deriving DecidableEq, Repr

/-- `ActivityType` enum from `app/models.py`. -/
inductive ActivityType where
  | structuring | money_laundering | fraud | terrorist_financing
  | unusual_transaction | multiple_accounts | high_risk_jurisdiction
deriving DecidableEq, Repr

/-- `Entity` dataclass (open mappings `identifiers`/`metadata` omitted: no
claim logic reads them). -/
structure Entity where
  entity_id : String
  name : String
  entity_type : String
  risk_score : ℚ
  risk_level : RiskLevel
deriving DecidableEq, Repr

/-- `Transaction` dataclass; `timestamp` in seconds. -/
structure Transaction where
  transaction_id : String
  timestamp : ℤ
  amount : ℚ
  currency : String
  sender_id : String
  receiver_id : String
  transaction_type : String
deriving DecidableEq, Repr

/-- `SAR` dataclass. -/
structure SAR where
  sar_id : String
  filing_date : ℤ
  activity_type : ActivityType
  entities_involved : List String
  transactions_involved : List String
  narrative : String
  risk_level : RiskLevel
  amount_involved : ℚ
  time_period_start : ℤ
  time_period_end : ℤ
deriving DecidableEq, Repr

/-- `Pattern` dataclass (detection result). -/
structure Pattern where
  pattern_id : String
  pattern_type : String
  entities_involved : List String
  transactions_involved : List String
  sars_involved : List String
  confidence_score : ℚ
  risk_level : RiskLevel
  description : String
deriving DecidableEq, Repr

/-! ### Association lists standing for Python dicts -/

/-- Dict lookup: first (unique) entry with the given key. -/
def lookupA {α : Type} (l : List (String × α)) (k : String) : Option α :=
  (l.find? (fun p => p.1 == k)).map Prod.snd

/-- Dict assignment `d[k] = v`: replace the value if the key is present,
otherwise append (Python dicts preserve insertion order). -/
def upsertA {α : Type} (l : List (String × α)) (k : String) (v : α) :
    List (String × α) :=
  if l.any (fun p => p.1 == k) then
    l.map (fun p => if p.1 == k then (p.1, v) else p)
  else l ++ [(k, v)]

/-- In-place mutation of the value stored under `k` (as in
`self.entities[entity_id].risk_score = ...`). -/
def updateA {α : Type} (l : List (String × α)) (k : String) (f : α → α) :
    List (String × α) :=
  l.map (fun p => if p.1 == k then (p.1, f p.2) else p)

/-! ### The directed graph (`networkx.DiGraph`) -/

/-- Attributes attached to a directed edge by `add_transaction`. -/
structure EdgeEntry where
  src : String
  dst : String
  transaction_id : String
  amount : ℚ
  timestamp : ℤ
  transaction_type : String
deriving DecidableEq, Repr

/-- Does `e` occupy the adjacency slot `(u, v)`? -/
def edgeKeyMatches (u v : String) (e : EdgeEntry) : Bool :=
  e.src == u && e.dst == v

/-- A `networkx.DiGraph`: node set plus one attribute record per ordered
pair of adjacent nodes. -/
structure Graph where
  nodes : List String
  edges : List EdgeEntry
deriving DecidableEq, Repr

/-- `DiGraph.add_edge`: replaces the attributes if the ordered pair is
already present (a `DiGraph` holds at most one edge per ordered pair),
otherwise inserts the edge. -/
def Graph.addEdge (g : Graph) (e : EdgeEntry) : Graph :=
  if g.edges.any (edgeKeyMatches e.src e.dst) then
    { g with edges := g.edges.map (fun x => if edgeKeyMatches e.src e.dst x then e else x) }
  else
    { g with edges := g.edges ++ [e] }

/-- `graph.neighbors(u)`: successors of `u`. -/
def Graph.succList (g : Graph) (u : String) : List String :=
  (g.edges.filter (fun e => e.src == u)).map (·.dst)

/-- `graph.predecessors(u)`. -/
def Graph.predList (g : Graph) (u : String) : List String :=
  (g.edges.filter (fun e => e.dst == u)).map (·.src)

/-- `graph.get_edge_data(u, v)`. -/
def Graph.getEdgeData (g : Graph) (u v : String) : Option EdgeEntry :=
  g.edges.find? (edgeKeyMatches u v)

/-- Undirected adjacency: `v` is a successor or predecessor of `u`. -/
def Graph.adjU (g : Graph) (u v : String) : Bool :=
  g.edges.any (fun e => (e.src == u && e.dst == v) || (e.src == v && e.dst == u))

/-- Every edge endpoint is a registered node (true of every store the API
can build, since `add_transaction` adds both endpoints before the edge). -/
def ClosedGraph (g : Graph) : Prop :=
  ∀ e ∈ g.edges, e.src ∈ g.nodes ∧ e.dst ∈ g.nodes

instance (g : Graph) : Decidable (ClosedGraph g) := by
  unfold ClosedGraph; infer_instance

/-! ### The service state (`GraphRAGService.__init__`) -/

/-- The mutable state of `GraphRAGService`: the graph plus three id-keyed
maps. -/
structure GState where
  graph : Graph
  entities : List (String × Entity)
  transactions : List (String × Transaction)
  sars : List (String × SAR)
deriving DecidableEq, Repr

/-- The empty service state. -/
def emptyState : GState := ⟨⟨[], []⟩, [], [], []⟩

/-- `add_entity`: upsert the entity and register its graph node (graph node
attributes such as `name` carry no claim logic and are not modelled). -/
def add_entity (s : GState) (e : Entity) : GState :=
  let g := if e.entity_id ∈ s.graph.nodes then s.graph
           else { s.graph with nodes := s.graph.nodes ++ [e.entity_id] }
  { s with entities := upsertA s.entities e.entity_id e, graph := g }

/-- `add_transaction`: store the transaction, create missing endpoint nodes
(stubs), then add the directed edge keyed by the ordered pair. -/
def add_transaction (s : GState) (t : Transaction) : GState :=
  let g := s.graph
  let g := if t.sender_id ∈ g.nodes then g
           else { g with nodes := g.nodes ++ [t.sender_id] }
  let g := if t.receiver_id ∈ g.nodes then g
           else { g with nodes := g.nodes ++ [t.receiver_id] }
  let g := g.addEdge { src := t.sender_id, dst := t.receiver_id,
                       transaction_id := t.transaction_id, amount := t.amount,
                       timestamp := t.timestamp,
                       transaction_type := t.transaction_type }
  { s with transactions := upsertA s.transactions t.transaction_id t, graph := g }

/-- Risk-score increment per SAR risk level (the `.get(..., 0.1)` default in
the source is unreachable: the dict keys cover the whole enum). -/
def risk_increase (lvl : RiskLevel) : ℚ :=
  match lvl with
  | .low => 0.1
  | .medium => 0.25
  | .high => 0.5
  | .critical => 0.8

/-- The risk-level bucketing used in `add_sar` and `compute_risk_score`. -/
def bucketRiskLevel (r : ℚ) : RiskLevel :=
  if 0.8 ≤ r then .critical
  else if 0.6 ≤ r then .high
  else if 0.3 ≤ r then .medium
  else .low

/-- One risk-propagation step on an entity named by a SAR. -/
def bumpEntityRisk (lvl : RiskLevel) (e : Entity) : Entity :=
  let r := min 1 (e.risk_score + risk_increase lvl)
  { e with risk_score := r, risk_level := bucketRiskLevel r }

/-- `add_sar`: store the SAR, then for each involved entity already in the
entity map, bump its risk score and recompute its level.  (The mirrored
`risk_score` node attribute in the graph carries no claim logic and is not
modelled.) -/
def add_sar (s : GState) (sar : SAR) : GState :=
  let es := sar.entities_involved.foldl
    (fun es eid =>
      if (lookupA es eid).isSome then updateA es eid (bumpEntityRisk sar.risk_level)
      else es)
    s.entities
  { s with sars := upsertA s.sars sar.sar_id sar, entities := es }

/-! ### Depth-bounded undirected reachability (specification side)

`reachB g s n v` decides whether some undirected path of at most `n` edges
leads from `s` to `v` (intermediate hops range over the node list, which
covers every path in a closed graph).  This is the specification-side
rendering of "connected within `max_depth`"; the BFS below is proved to
compute exactly this set. -/
def reachB (g : Graph) (s : String) : ℕ → String → Bool
  | 0, v => v == s
  | n+1, v => reachB g s n v || g.nodes.any (fun u => reachB g s n u && g.adjU u v)

/-! ### `find_connected_entities` (BFS with a shared visited set) -/

/-- The inner neighbor loop of the BFS: for each neighbor not yet visited,
mark it visited, record it as connected, and enqueue it at depth `dep`. -/
def visitNeighbors (dep : ℕ) :
    List String → List String → List String → List (String × ℕ) →
    List String × List String × List (String × ℕ)
  | [], visited, connected, acc => (visited, connected, acc)
  | w :: ws, visited, connected, acc =>
    if w ∈ visited then visitNeighbors dep ws visited connected acc
    else visitNeighbors dep ws (visited ++ [w]) (connected ++ [w]) (acc ++ [(w, dep)])

/-- The BFS `while queue:` loop.  `fuel` bounds the number of iterations;
`find_connected_entities` supplies enough fuel for the loop to drain the
queue (each node is enqueued at most once). -/
def bfsLoop (g : Graph) (max_depth : ℕ) :
    ℕ → List (String × ℕ) → List String → List String → List String
  | 0, _, _, connected => connected
  | _+1, [], _, connected => connected
  | fuel+1, (current, depth) :: rest, visited, connected =>
    if max_depth ≤ depth then bfsLoop g max_depth fuel rest visited connected
    else
      let r := visitNeighbors (depth+1) (g.succList current ++ g.predList current)
        visited connected []
      bfsLoop g max_depth fuel (rest ++ r.2.2) r.1 r.2.1

/-- `find_connected_entities`: BFS over both edge directions from
`entity_id`, visited set seeded with the start node; empty result for an
unknown id. -/
def find_connected_entities (g : Graph) (entity_id : String) (max_depth : ℕ) :
    List String :=
  if entity_id ∈ g.nodes then
    bfsLoop g max_depth (g.nodes.length + 1) [(entity_id, 0)] [entity_id] []
  else []

/-! ### `detect_structuring_pattern` -/

/-- `detect_structuring_pattern` (the evaluation instant `now`, read from
the wall clock in the source, is an explicit parameter; `timedelta.days`
is flooring division of the age in seconds by 86400).  Note the literal
band `9000 <= amount < threshold` from the source. -/
def detect_structuring_pattern (s : GState) (entity_id : String)
    (time_window_days : ℤ) (threshold : ℚ) (now : ℤ) : Option Pattern :=
  if entity_id ∈ s.graph.nodes then
    let entity_transactions := (s.transactions.map Prod.snd).filter
      (fun t => t.sender_id == entity_id || t.receiver_id == entity_id)
    let recent_trans := entity_transactions.filter
      (fun t => decide (Int.fdiv (now - t.timestamp) 86400 ≤ time_window_days))
    let small_transactions := recent_trans.filter
      (fun t => decide (9000 ≤ t.amount ∧ t.amount < threshold))
    if 3 ≤ small_transactions.length then
      let confidence : ℚ := min 1 ((small_transactions.length : ℚ) / 10)
      some { pattern_id := "structuring_" ++ entity_id ++ "_" ++ toString now,
             pattern_type := "structuring",
             entities_involved := [entity_id],
             transactions_involved := small_transactions.map (·.transaction_id),
             sars_involved := [],
             confidence_score := confidence,
             risk_level := if 0.7 < confidence then .high else .medium,
             description := "possible structuring below reporting threshold" }
    else none
  else none

/-! ### `detect_circular_transactions` -/

/-- All directed edges between consecutive nodes of `c` exist (Bool). -/
def pathEdgesB (g : Graph) : List String → Bool
  | [] => true
  | [_] => true
  | a :: b :: rest => g.edges.any (edgeKeyMatches a b) && pathEdgesB g (b :: rest)

/-- `c` lists the nodes of a simple directed cycle: nonempty, pairwise
distinct, consecutive edges exist, closing edge exists. -/
def isSimpleCycleB (g : Graph) (c : List String) : Bool :=
  !c.isEmpty && decide c.Nodup && pathEdgesB g c &&
    (match c.getLast?, c.head? with
     | some l, some h => g.edges.any (edgeKeyMatches l h)
     | _, _ => false)

/-- Lexicographic comparison of character lists (structural recursion;
`String.decidableLT` itself does not evaluate in the kernel). -/
def charListLt : List Char → List Char → Bool
  | [], [] => false
  | [], _ :: _ => true
  | _ :: _, [] => false
  | a :: as, b :: bs =>
    if a < b then true else if b < a then false else charListLt as bs

/-- String comparison via the underlying character lists. -/
def strLt (s t : String) : Bool := charListLt s.data t.data

/-- The rotation-canonical representative: the head is the least node. -/
def headIsMin (c : List String) : Bool :=
  match c with
  | [] => false
  | h :: t => t.all (fun x => strLt h x)

/-- All ways to insert `x` into a list (helper for the permutation
enumeration below; structural recursion so concrete instances evaluate). -/
def insertsOf {α : Type} (x : α) : List α → List (List α)
  | [] => [[x]]
  | b :: t => (x :: b :: t) :: (insertsOf x t).map (b :: ·)

/-- All orderings of a list (structural recursion). -/
def allPerms {α : Type} : List α → List (List α)
  | [] => [[]]
  | a :: t => (allPerms t).flatMap (insertsOf a)

/-- Models `networkx.simple_cycles` (an external library call): the list of
all simple directed cycles of the graph, one representative per cyclic
rotation, enumerated by brute force over node subsets and their orderings. -/
def simpleCyclesCanonical (g : Graph) : List (List String) :=
  ((g.nodes.dedup.sublists).flatMap allPerms).filter
    (fun c => isSimpleCycleB g c && headIsMin c)

/-- The transaction id recorded on each consecutive edge of the cycle
(including the closing edge, via the `(i+1) % len` index of the source). -/
def cycleTransactionIds (g : Graph) (cycle : List String) : List String :=
  (List.range cycle.length).filterMap (fun i =>
    (g.getEdgeData (cycle.getD i "") (cycle.getD ((i+1) % cycle.length) "")).map
      (·.transaction_id))

/-- `detect_circular_transactions`: one pattern per simple cycle of length
at least `min_cycle_length` whose edges carry transaction ids (the
hash-and-timestamp `pattern_id` of the source carries no logic and is
abstracted to a plain id). -/
def detect_circular_transactions (s : GState) (min_cycle_length : ℕ) :
    List Pattern :=
  (simpleCyclesCanonical s.graph).filterMap (fun cycle =>
    if min_cycle_length ≤ cycle.length then
      let cycle_transactions := cycleTransactionIds s.graph cycle
      if cycle_transactions.isEmpty then none
      else
        let confidence : ℚ := min 1 ((cycle.length : ℚ) / 10)
        some { pattern_id := "circular_" ++ String.intercalate "_" cycle,
               pattern_type := "circular_transactions",
               entities_involved := cycle,
               transactions_involved := cycle_transactions,
               sars_involved := [],
               confidence_score := confidence,
               risk_level := if 0.8 < confidence then .critical else .high,
               description := "circular transaction pattern" }
    else none)

/-! ### `find_related_sars` and `compute_entity_risk_score` -/

/-- `find_related_sars`: SARs naming any entity within depth-2 undirected
reachability of `entity_id` (the start node included, via
`connected.add(entity_id)`). -/
def find_related_sars (s : GState) (entity_id : String) : List SAR :=
  let connected := entity_id :: find_connected_entities s.graph entity_id 2
  (s.sars.map Prod.snd).filter
    (fun sar => sar.entities_involved.any (fun e => connected.contains e))

/-- `e_id in self.entities and self.entities[e_id].risk_score > 0.5`: the
entity has a stored record whose risk score exceeds `0.5`. -/
def highRiskStored (s : GState) (e_id : String) : Bool :=
  match lookupA s.entities e_id with
  | some e => decide (0.5 < e.risk_score)
  | none => false

/-- `compute_entity_risk_score`: the derived (read-only) comprehensive
score; `0.0` for an id with no entity record. -/
def compute_entity_risk_score (s : GState) (entity_id : String) : ℚ :=
  match lookupA s.entities entity_id with
  | none => 0
  | some entity =>
    let connected := find_connected_entities s.graph entity_id 2
    let high_risk_connections := connected.countP (highRiskStored s)
    let risk_score := entity.risk_score + min 0.3 ((high_risk_connections : ℚ) * 0.05)
    let related_sars := find_related_sars s entity_id
    let risk_score := risk_score + min 0.3 ((related_sars.length : ℚ) * 0.1)
    min 1 risk_score

/-! ### `get_system_stats` (the `/api/stats` route) -/

/-- The counters reported by `/api/stats`. -/
structure SystemStats where
  total_entities : ℕ
  total_transactions : ℕ
  total_sars : ℕ
  graph_nodes : ℕ
  graph_edges : ℕ
  high_risk_entities : ℕ
deriving DecidableEq, Repr

/-- `get_system_stats`. -/
def get_system_stats (s : GState) : SystemStats :=
  { total_entities := s.entities.length,
    total_transactions := s.transactions.length,
    total_sars := s.sars.length,
    graph_nodes := s.graph.nodes.length,
    graph_edges := s.graph.edges.length,
    high_risk_entities := (s.entities.map Prod.snd).countP
      (fun e => decide (e.risk_level = .high ∨ e.risk_level = .critical)) }

/-! ### `AIAnalysisService`: keyword embeddings and cosine similarity -/

/-- Python's `str.upper()` (character-wise; `String.toUpper` itself is
well-founded recursion the kernel cannot evaluate). -/
def pyUpper (s : String) : String := ⟨s.data.map Char.toUpper⟩

/-- Python's `str.lower()` (character-wise). -/
def pyLower (s : String) : String := ⟨s.data.map Char.toLower⟩

/-- The five-category keyword-bucket embedding of a narrative: one fraction
per category of `self.keywords`, in declaration order. -/
structure Emb where
  structuring : ℚ
  money_laundering : ℚ
  fraud : ℚ
  terrorist_financing : ℚ
  unusual_transaction : ℚ
deriving DecidableEq, Repr

/-- Python's substring test `keyword in text`. -/
def containsKeyword (keyword text : String) : Bool :=
  text.toList.tails.any (fun t => keyword.toList.isPrefixOf t)

/-- Keywords of the `structuring` category. -/
def kwStructuring : List String :=
  ["multiple", "transactions", "below", "threshold", "avoid"]

/-- Keywords of the `money_laundering` category. -/
def kwMoneyLaundering : List String :=
  ["layering", "placement", "integration", "wash"]

/-- Keywords of the `fraud` category. -/
def kwFraud : List String :=
  ["false", "fake", "deception", "misrepresentation"]

/-- Keywords of the `terrorist_financing` category. -/
def kwTerroristFinancing : List String :=
  ["terrorism", "extremist", "funding"]

/-- Keywords of the `unusual_transaction` category. -/
def kwUnusualTransaction : List String :=
  ["unusual", "abnormal", "irregular", "suspicious"]

/-- `count / len(keywords)` for one category. -/
def keywordFraction (kws : List String) (textLower : String) : ℚ :=
  (kws.countP (fun k => containsKeyword k textLower) : ℚ) / (kws.length : ℚ)

/-- `_create_simple_embedding`: lower-case the text and compute the keyword
fraction of each category. -/
def create_simple_embedding (text : String) : Emb :=
  let t := pyLower text
  { structuring := keywordFraction kwStructuring t,
    money_laundering := keywordFraction kwMoneyLaundering t,
    fraud := keywordFraction kwFraud t,
    terrorist_financing := keywordFraction kwTerroristFinancing t,
    unusual_transaction := keywordFraction kwUnusualTransaction t }

/-- `np.dot` of two embeddings. -/
def embDot (a b : Emb) : ℚ :=
  a.structuring * b.structuring + a.money_laundering * b.money_laundering +
  a.fraud * b.fraud + a.terrorist_financing * b.terrorist_financing +
  a.unusual_transaction * b.unusual_transaction

/-- Squared Euclidean norm of an embedding. -/
def embNormSq (a : Emb) : ℚ := embDot a a

/-- The all-zero embedding (`np.zeros(5)`). -/
def embZero : Emb := ⟨0, 0, 0, 0, 0⟩

/-- `_cosine_similarity`: `dot / (norm1 * norm2)`, and `0.0` when either
norm is zero.  The source guard `norm1 == 0 or norm2 == 0` is expressed on
the squared norms: for a real vector, `‖v‖ = 0` exactly when `Σ vᵢ² = 0`. -/
noncomputable def cosine_similarity (a b : Emb) : ℝ :=
  if embNormSq a = 0 ∨ embNormSq b = 0 then 0
  else (embDot a b : ℝ) / (Real.sqrt (embNormSq a) * Real.sqrt (embNormSq b))

/-- `compute_risk_score` from `app/ai_service.py`: the weighted aggregate
score and its bucketed risk level. -/
def compute_risk_score (entity_connections sar_count : ℕ)
    (transaction_volume : ℚ) (pattern_count : ℕ) : ℚ × RiskLevel :=
  let score : ℚ := 0
  let score := score + min 0.3 ((sar_count : ℚ) * 0.1)
  let score := score + min 0.2 ((entity_connections : ℚ) * 0.02)
  let score := score +
    (if 1000000 < transaction_volume then 0.3
     else if 100000 < transaction_volume then 0.2
     else if 10000 < transaction_volume then 0.1 else 0)
  let score := score + min 0.2 ((pattern_count : ℚ) * 0.05)
  let risk_level := bucketRiskLevel score
  (min 1 score, risk_level)

/-- Specification-side aggregate score: the four pre-clamped terms of the
claim, summed (to be compared with `compute_risk_score`). -/
def aggregateScore (entity_connections sar_count : ℕ)
    (transaction_volume : ℚ) (pattern_count : ℕ) : ℚ :=
  min 0.3 ((sar_count : ℚ) * 0.1)
  + min 0.2 ((entity_connections : ℚ) * 0.02)
  + (if 1000000 < transaction_volume then 0.3
     else if 100000 < transaction_volume then 0.2
     else if 10000 < transaction_volume then 0.1 else 0)
  + min 0.2 ((pattern_count : ℚ) * 0.05)

/-! ### The request handlers of `app/routes.py`

A request body is a dict; a field read `data["k"]` raises `KeyError(k)` when
the key is absent, and an enum lookup `RiskLevel[name]` /
`ActivityType[name]` raises `KeyError(name)` for an unrecognized name.
Both land in the same `except KeyError` branch, which answers
`400 "Missing field: ..."`; `missingField` below is exactly that branch. -/

/-- The responses a create route can produce. -/
inductive ApiResponse where
  | created (id : String)
  | missingField (key : String)
  | serverError (msg : String)
deriving DecidableEq, Repr

/-- `RiskLevel[name]` as a partial lookup over the enum member names. -/
def parseRiskLevelName (s : String) : Option RiskLevel :=
  if s = "LOW" then some .low
  else if s = "MEDIUM" then some .medium
  else if s = "HIGH" then some .high
  else if s = "CRITICAL" then some .critical
  else none

/-- `ActivityType[name]` as a partial lookup over the enum member names. -/
def parseActivityTypeName (s : String) : Option ActivityType :=
  if s = "STRUCTURING" then some .structuring
  else if s = "MONEY_LAUNDERING" then some .money_laundering
  else if s = "FRAUD" then some .fraud
  else if s = "TERRORIST_FINANCING" then some .terrorist_financing
  else if s = "UNUSUAL_TRANSACTION" then some .unusual_transaction
  else if s = "MULTIPLE_ACCOUNTS" then some .multiple_accounts
  else if s = "HIGH_RISK_JURISDICTION" then some .high_risk_jurisdiction
  else none

/-- The body of a `POST /api/entities` request (fields that may be absent). -/
structure EntityRequest where
  entity_id : Option String
  name : Option String
  entity_type : Option String
  risk_score : Option ℚ
  risk_level : Option String
deriving DecidableEq, Repr

/-- The `add_entity` route handler: reads the required fields in source
order, resolves the risk level name (default `"LOW"`, upper-cased), and
only on success mutates the store. -/
def add_entity_route (s : GState) (d : EntityRequest) : ApiResponse × GState :=
  match d.entity_id with
  | none => (.missingField "entity_id", s)
  | some eid =>
  match d.name with
  | none => (.missingField "name", s)
  | some nm =>
  match d.entity_type with
  | none => (.missingField "entity_type", s)
  | some ty =>
  let rlName := pyUpper (d.risk_level.getD "LOW")
  match parseRiskLevelName rlName with
  | none => (.missingField rlName, s)
  | some lvl =>
    let e : Entity := { entity_id := eid, name := nm, entity_type := ty,
                        risk_score := d.risk_score.getD 0, risk_level := lvl }
    (.created eid, add_entity s e)

/-- The body of a `POST /api/sars` request. -/
structure SarRequest where
  sar_id : Option String
  filing_date : Option ℤ
  activity_type : Option String
  entities_involved : Option (List String)
  transactions_involved : Option (List String)
  narrative : Option String
  risk_level : Option String
  amount_involved : Option ℚ
  time_period_start : Option ℤ
  time_period_end : Option ℤ
deriving DecidableEq, Repr

/-- The `add_sar` route handler: reads the fields in source order (both
enum fields are required here), and only on success stores the SAR and
propagates risk. -/
def add_sar_route (s : GState) (d : SarRequest) : ApiResponse × GState :=
  match d.sar_id with
  | none => (.missingField "sar_id", s)
  | some sid =>
  match d.filing_date with
  | none => (.missingField "filing_date", s)
  | some fd =>
  match d.activity_type with
  | none => (.missingField "activity_type", s)
  | some atName =>
  match parseActivityTypeName (pyUpper atName) with
  | none => (.missingField (pyUpper atName), s)
  | some at_ =>
  match d.entities_involved with
  | none => (.missingField "entities_involved", s)
  | some ents =>
  match d.transactions_involved with
  | none => (.missingField "transactions_involved", s)
  | some txs =>
  match d.narrative with
  | none => (.missingField "narrative", s)
  | some narr =>
  match d.risk_level with
  | none => (.missingField "risk_level", s)
  | some rlRaw =>
  match parseRiskLevelName (pyUpper rlRaw) with
  | none => (.missingField (pyUpper rlRaw), s)
  | some lvl =>
  match d.amount_involved with
  | none => (.missingField "amount_involved", s)
  | some amt =>
  match d.time_period_start with
  | none => (.missingField "time_period_start", s)
  | some tps =>
  match d.time_period_end with
  | none => (.missingField "time_period_end", s)
  | some tpe =>
    let sar : SAR := { sar_id := sid, filing_date := fd, activity_type := at_,
                       entities_involved := ents, transactions_involved := txs,
                       narrative := narr, risk_level := lvl,
                       amount_involved := amt, time_period_start := tps,
                       time_period_end := tpe }
    (.created sid, add_sar s sar)

/-! ### Specification-side definitions used to state the claims -/

/-- A transaction the structuring detector counts for `entity_id`: touches
the entity, is at most `time_window_days` whole days old at `now`, and its
amount lies in the literal band `[9000, threshold)` of the source. -/
def structuringCandidate (entity_id : String) (time_window_days : ℤ)
    (threshold : ℚ) (now : ℤ) (t : Transaction) : Prop :=
  (t.sender_id = entity_id ∨ t.receiver_id = entity_id) ∧
  Int.fdiv (now - t.timestamp) 86400 ≤ time_window_days ∧
  (9000 ≤ t.amount ∧ t.amount < threshold)

instance (entity_id : String) (time_window_days : ℤ) (threshold : ℚ)
    (now : ℤ) (t : Transaction) :
    Decidable (structuringCandidate entity_id time_window_days threshold now t) := by
  unfold structuringCandidate; infer_instance

/-- Specification-side count of stored transactions satisfying
`structuringCandidate`. -/
def structuringCount (s : GState) (entity_id : String) (time_window_days : ℤ)
    (threshold : ℚ) (now : ℤ) : ℕ :=
  (s.transactions.map Prod.snd).countP
    (fun t => decide (structuringCandidate entity_id time_window_days threshold now t))

/-- Specification-side count of high-risk connections: entities other than
`entity_id`, reachable within two undirected hops, whose stored risk score
exceeds `0.5`. -/
def highRiskConnCount (s : GState) (entity_id : String) : ℕ :=
  (s.graph.nodes.toFinset.filter (fun v =>
    v ≠ entity_id ∧ reachB s.graph entity_id 2 v = true ∧
    highRiskStored s v = true)).card

/-- Specification-side count of related SARs: stored SARs naming any entity
within two undirected hops of `entity_id` (the entity itself included,
since `reachB` is reflexive). -/
def relatedSarCount (s : GState) (entity_id : String) : ℕ :=
  (s.sars.map Prod.snd).countP
    (fun sar => sar.entities_involved.any (fun e => reachB s.graph entity_id 2 e))

/-- `v` is at distance exactly `j` from `s`: reachable within `j` hops and
within no smaller bound. -/
def AtDist (g : Graph) (s : String) (j : ℕ) (v : String) : Prop :=
  reachB g s j v = true ∧ ∀ i, i < j → reachB g s i v = false

/-- The loop invariant of the BFS in `find_connected_entities`.
`q` is the queue, `V` the visited set, `C` the connected set. -/
structure BfsInv (g : Graph) (s : String) (d : ℕ) (q : List (String × ℕ))
    (V C : List String) : Prop where
  qmem : ∀ p ∈ q, p.1 ∈ V ∧ AtDist g s p.2 p.1 ∧ p.2 ≤ d
  vreach : ∀ v ∈ V, reachB g s d v = true
  smem : s ∈ V
  vnodes : ∀ v ∈ V, v ∈ g.nodes
  qsorted : List.Pairwise (fun p r => p.2 ≤ r.2) q
  qspan : ∀ p ∈ q, ∀ r ∈ q, r.2 ≤ p.2 + 1
  qnodup : (q.map Prod.fst).Nodup
  expanded : ∀ v ∈ V, v ∉ q.map Prod.fst → ∀ j, AtDist g s j v → j < d →
    ∀ w, g.adjU v w = true → w ∈ V
  frontier : ∀ p ∈ q, (∀ r ∈ q, p.2 ≤ r.2) → ∀ v, reachB g s p.2 v = true → v ∈ V
  vc : ∀ v, v ∈ V ↔ v = s ∨ v ∈ C
  snotc : s ∉ C
  cnodup : C.Nodup

/-! ### Concrete stores used to instantiate the theorems -/

/-- Shorthand transaction constructor for concrete examples. -/
def tx (id : String) (ts : ℤ) (amt : ℚ) (sndr rcvr : String) : Transaction :=
  ⟨id, ts, amt, "USD", sndr, rcvr, "wire_transfer"⟩

/-- Two parallel transactions on the ordered pair (A, B). -/
def c1State : GState :=
  add_transaction (add_transaction emptyState (tx "T1" 0 100 "A" "B"))
    (tx "T2" 0 200 "A" "B")

/-- An entity with risk score `0.0`. -/
def c2Entity : Entity := ⟨"E1", "Alice", "person", 0, .low⟩

/-- Store holding just `c2Entity`. -/
def c2State : GState := add_entity emptyState c2Entity

/-- A HIGH-risk SAR naming `E1` and an unknown id. -/
def c2Sar : SAR :=
  ⟨"S1", 0, .structuring, ["E1", "UNKNOWN"], [], "narrative", .high, 50000, 0, 0⟩

/-- Evaluation instant for the structuring scenario. -/
def c3Now : ℤ := 1000000

/-- Five transactions of 9500–9900 between two entities within five days. -/
def c3State : GState :=
  add_transaction (add_transaction (add_transaction (add_transaction
    (add_transaction emptyState (tx "P1" (c3Now - 1 * 86400) 9500 "A" "B"))
    (tx "P2" (c3Now - 2 * 86400) 9600 "A" "B"))
    (tx "P3" (c3Now - 3 * 86400) 9700 "A" "B"))
    (tx "P4" (c3Now - 4 * 86400) 9800 "A" "B"))
    (tx "P5" (c3Now - 5 * 86400) 9900 "A" "B")

/-- The circular scenario A→B→C→A. -/
def c4State : GState :=
  add_transaction (add_transaction (add_transaction emptyState
    (tx "TAB" 0 100 "A" "B")) (tx "TBC" 0 100 "B" "C")) (tx "TCA" 0 100 "C" "A")

/-- A path graph A→B→C→D (D is three hops from A). -/
def c5Graph : Graph :=
  (add_transaction (add_transaction (add_transaction emptyState
    (tx "T1" 0 1 "A" "B")) (tx "T2" 0 1 "B" "C")) (tx "T3" 0 1 "C" "D")).graph

/-- Entities A (risk 0.2) and B (risk 0.6, bumped to 0.7 by a LOW SAR),
connected by one transaction; one SAR names B. -/
def c6State : GState :=
  add_sar
    (add_transaction
      (add_entity (add_entity emptyState ⟨"A", "A", "person", 0.2, .low⟩)
        ⟨"B", "B", "person", 0.6, .high⟩)
      (tx "T1" 0 100 "A" "B"))
    ⟨"S1", 0, .money_laundering, ["B"], [], "n", .low, 0, 0, 0⟩

/-- An entity request whose risk-level string is not an enum member. -/
def badEntityReq : EntityRequest :=
  ⟨some "E1", some "Nm", some "person", none, some "banana"⟩

/-- An entity request with the `name` field absent. -/
def missingNameReq : EntityRequest := ⟨some "E1", none, none, none, none⟩

/-- A SAR request whose activity-type string is not an enum member. -/
def badSarReq : SarRequest :=
  ⟨some "S1", some 0, some "weird_type", some [], some [], some "n",
   some "high", some 0, some 0, some 0⟩

/-- A SAR request whose risk-level string is not an enum member. -/
def badSarReq2 : SarRequest :=
  { badSarReq with activity_type := some "structuring", risk_level := some "nope" }

/-- A single transaction between two never-declared ids. -/
def c10State : GState := add_transaction emptyState (tx "T1" 0 500 "A" "B")

/-! ## Lemmas about the dict embedding -/

theorem lookupA_nil {α : Type} (k : String) :
    lookupA ([] : List (String × α)) k = none := rfl

theorem lookupA_cons {α : Type} (p : String × α) (l : List (String × α)) (k : String) :
    lookupA (p :: l) k = if p.1 = k then some p.2 else lookupA l k := by
  by_cases h : p.1 = k <;> simp [lookupA, List.find?_cons, h]

theorem lookupA_updateA_self {α : Type} (l : List (String × α)) (k : String) (f : α → α) :
    lookupA (updateA l k f) k = (lookupA l k).map f := by
  induction l with
  | nil => rfl
  | cons p t ih =>
    cases hb : (p.1 == k) with
    | true =>
      have hp : p.1 = k := by simpa using hb
      simp [updateA, hb, lookupA_cons, hp]
    | false =>
      have hp : p.1 ≠ k := by intro hh; simp [hh] at hb
      simpa [updateA, hb, lookupA_cons, hp] using ih

theorem lookupA_updateA_ne {α : Type} (l : List (String × α)) (k k' : String)
    (f : α → α) (h : k' ≠ k) :
    lookupA (updateA l k f) k' = lookupA l k' := by
  induction l with
  | nil => rfl
  | cons p t ih =>
    by_cases hp : p.1 = k
    · have hk' : k ≠ k' := fun hh => h hh.symm
      simpa [updateA, lookupA_cons, hp, hk'] using ih
    · by_cases hq : p.1 = k'
      · simp [updateA, lookupA_cons, hp, hq, h]
      · simpa [updateA, lookupA_cons, hp, hq] using ih

theorem updateA_eq_map_branch {α : Type} (l : List (String × α)) (k : String) (v : α) :
    l.map (fun p => if p.1 == k then (p.1, v) else p) = updateA l k (fun _ => v) := rfl

theorem lookupA_append {α : Type} (l₁ l₂ : List (String × α)) (k : String) :
    lookupA (l₁ ++ l₂) k =
      match lookupA l₁ k with
      | some v => some v
      | none => lookupA l₂ k := by
  induction l₁ with
  | nil => simp [lookupA_nil]
  | cons p t ih =>
    by_cases h : p.1 = k <;> simp [lookupA_cons, h, ih]

theorem lookupA_upsertA_self {α : Type} (l : List (String × α)) (k : String) (v : α) :
    lookupA (upsertA l k v) k = some v := by
  unfold upsertA
  by_cases hany : l.any (fun p => p.1 == k)
  · rw [if_pos hany, updateA_eq_map_branch, lookupA_updateA_self]
    rw [List.any_eq_true] at hany
    obtain ⟨p, hp, hk⟩ := hany
    have hk' : p.1 = k := by simpa using hk
    have : (lookupA l k).isSome := by
      clear hk
      induction l with
      | nil => cases hp
      | cons q t ih =>
        rcases List.mem_cons.mp hp with hq | hq
        · subst hq; simp [lookupA_cons, hk']
        · by_cases hqk : q.1 = k
          · simp [lookupA_cons, hqk]
          · simpa [lookupA_cons, hqk] using ih hq
    obtain ⟨w, hw⟩ := Option.isSome_iff_exists.mp this
    simp [hw]
  · rw [if_neg hany, lookupA_append]
    have : lookupA l k = none := by
      rw [List.any_eq_true] at hany
      push_neg at hany
      induction l with
      | nil => rfl
      | cons q t ih =>
        have hq : ¬ q.1 = k := by
          intro hh
          exact absurd (by simp [hh] : (q.1 == k) = true)
            (hany q (List.mem_cons_self q t))
        rw [lookupA_cons, if_neg hq]
        exact ih (fun p hp => hany p (List.mem_cons_of_mem q hp))
    simp [this, lookupA_cons]

theorem lookupA_upsertA_ne {α : Type} (l : List (String × α)) (k k' : String)
    (v : α) (h : k' ≠ k) :
    lookupA (upsertA l k v) k' = lookupA l k' := by
  unfold upsertA
  by_cases hany : l.any (fun p => p.1 == k)
  · rw [if_pos hany, updateA_eq_map_branch, lookupA_updateA_ne _ _ _ _ h]
  · rw [if_neg hany, lookupA_append]
    cases hl : lookupA l k' with
    | some w => simp
    | none => simp [lookupA_cons, lookupA_nil, Ne.symm h]

/-! ## Lemmas about bounded reachability -/

theorem reachB_zero_iff (g : Graph) (s v : String) :
    reachB g s 0 v = true ↔ v = s := by
  simp [reachB]

theorem reachB_succ_iff (g : Graph) (s : String) (n : ℕ) (v : String) :
    reachB g s (n+1) v = true ↔
      reachB g s n v = true ∨
        ∃ u ∈ g.nodes, reachB g s n u = true ∧ g.adjU u v = true := by
  simp [reachB, List.any_eq_true]

theorem reachB_succ_of_reachB (g : Graph) (s : String) (n : ℕ) (v : String)
    (h : reachB g s n v = true) : reachB g s (n+1) v = true := by
  rw [reachB_succ_iff]; exact Or.inl h

theorem reachB_mono (g : Graph) (s : String) {m n : ℕ} (h : m ≤ n) {v : String}
    (hv : reachB g s m v = true) : reachB g s n v = true := by
  induction n with
  | zero => simpa [Nat.le_zero.mp h] using hv
  | succ n ih =>
    rcases Nat.lt_or_ge m (n+1) with hlt | hge
    · exact reachB_succ_of_reachB g s n v (ih (Nat.lt_succ_iff.mp hlt))
    · simpa [Nat.le_antisymm h hge] using hv

theorem reachB_self (g : Graph) (s : String) (n : ℕ) :
    reachB g s n s = true :=
  reachB_mono g s (Nat.zero_le n) ((reachB_zero_iff g s s).mpr rfl)

theorem reachB_of_not_mem (g : Graph) (s : String) (hs : s ∉ g.nodes) :
    ∀ (n : ℕ) (v : String), reachB g s n v = (v == s)
  | 0, v => rfl
  | n+1, v => by
    have ih := reachB_of_not_mem g s hs n
    simp only [reachB, ih]
    have : (g.nodes.any fun u => (u == s) && g.adjU u v) = false := by
      rw [List.any_eq_false]
      intro u hu
      intro hcontra
      rw [Bool.and_eq_true, beq_iff_eq] at hcontra
      exact hs (hcontra.1 ▸ hu)
    rw [this, Bool.or_false]

theorem exists_atDist (g : Graph) (s : String) {n : ℕ} {v : String}
    (h : reachB g s n v = true) : ∃ j, j ≤ n ∧ AtDist g s j v := by
  have hex : ∃ i, reachB g s i v = true := ⟨n, h⟩
  refine ⟨Nat.find hex, Nat.find_le h, Nat.find_spec hex, ?_⟩
  intro i hi
  have := Nat.find_min hex hi
  exact Bool.eq_false_iff.mpr this

theorem atDist_unique {g : Graph} {s : String} {j j' : ℕ} {v : String}
    (h1 : AtDist g s j v) (h2 : AtDist g s j' v) : j = j' := by
  rcases Nat.lt_trichotomy j j' with h | h | h
  · exact absurd h1.1 (by rw [h2.2 j h]; simp)
  · exact h
  · exact absurd h2.1 (by rw [h1.2 j' h]; simp)

theorem atDist_le_of_reachB {g : Graph} {s : String} {j n : ℕ} {v : String}
    (h : AtDist g s j v) (hr : reachB g s n v = true) : j ≤ n := by
  by_contra hc
  rw [h.2 n (Nat.lt_of_not_le hc)] at hr
  cases hr

theorem reachB_mem_nodes {g : Graph} {s : String} (hcl : ClosedGraph g)
    (hs : s ∈ g.nodes) : ∀ (n : ℕ) (v : String), reachB g s n v = true → v ∈ g.nodes
  | 0, v, h => (reachB_zero_iff g s v).mp h ▸ hs
  | n+1, v, h => by
    rcases (reachB_succ_iff g s n v).mp h with h' | ⟨u, _, _, hadj⟩
    · exact reachB_mem_nodes hcl hs n v h'
    · rw [Graph.adjU, List.any_eq_true] at hadj
      obtain ⟨e, he, hor⟩ := hadj
      rcases Bool.or_eq_true _ _ |>.mp hor with h1 | h2
      · rw [Bool.and_eq_true, beq_iff_eq, beq_iff_eq] at h1
        exact h1.2 ▸ (hcl e he).2
      · rw [Bool.and_eq_true, beq_iff_eq, beq_iff_eq] at h2
        exact h2.1 ▸ (hcl e he).1

/-! ## Lemmas about the BFS neighbor loop -/

theorem mem_neighbors_iff (g : Graph) (x w : String) :
    w ∈ g.succList x ++ g.predList x ↔ g.adjU x w = true := by
  simp only [List.mem_append, Graph.succList, Graph.predList, Graph.adjU,
    List.mem_map, List.mem_filter, List.any_eq_true, Bool.or_eq_true,
    Bool.and_eq_true, beq_iff_eq]
  constructor
  · rintro (⟨e, ⟨he, hsrc⟩, hdst⟩ | ⟨e, ⟨he, hdst⟩, hsrc⟩)
    · exact ⟨e, he, Or.inl ⟨hsrc, hdst⟩⟩
    · exact ⟨e, he, Or.inr ⟨hsrc, hdst⟩⟩
  · rintro ⟨e, he, ⟨hsrc, hdst⟩ | ⟨hsrc, hdst⟩⟩
    · exact Or.inl ⟨e, ⟨he, hsrc⟩, hdst⟩
    · exact Or.inr ⟨e, ⟨he, hdst⟩, hsrc⟩

theorem mem_nodes_of_neighbor {g : Graph} (hcl : ClosedGraph g) {x w : String}
    (h : w ∈ g.succList x ++ g.predList x) : w ∈ g.nodes := by
  rcases List.mem_append.mp h with h' | h'
  · rw [Graph.succList] at h'
    obtain ⟨e, he, hdst⟩ := List.mem_map.mp h'
    exact hdst ▸ (hcl e (List.mem_filter.mp he).1).2
  · rw [Graph.predList] at h'
    obtain ⟨e, he, hsrc⟩ := List.mem_map.mp h'
    exact hsrc ▸ (hcl e (List.mem_filter.mp he).1).1

theorem visitNeighbors_spec (dep : ℕ) (ws : List String) :
    ∀ (V C : List String) (acc : List (String × ℕ)),
    ∃ fr : List String,
      visitNeighbors dep ws V C acc =
        (V ++ fr, C ++ fr, acc ++ fr.map (fun w => (w, dep))) ∧
      fr.Nodup ∧ (∀ w, w ∈ fr ↔ w ∈ ws ∧ w ∉ V) := by
  induction ws with
  | nil =>
    intro V C acc
    exact ⟨[], by simp [visitNeighbors], List.nodup_nil, by simp⟩
  | cons w ws ih =>
    intro V C acc
    by_cases hw : w ∈ V
    · obtain ⟨fr, h1, h2, h3⟩ := ih V C acc
      refine ⟨fr, by simpa [visitNeighbors, hw] using h1, h2, ?_⟩
      intro x
      rw [h3 x]
      constructor
      · rintro ⟨hx, hxv⟩; exact ⟨List.mem_cons_of_mem w hx, hxv⟩
      · rintro ⟨hx, hxv⟩
        rcases List.mem_cons.mp hx with rfl | hx'
        · exact absurd hw hxv
        · exact ⟨hx', hxv⟩
    · obtain ⟨fr, h1, h2, h3⟩ := ih (V ++ [w]) (C ++ [w]) (acc ++ [(w, dep)])
      have hwfr : w ∉ fr := by
        intro hc
        exact ((h3 w).mp hc).2 (by simp)
      refine ⟨w :: fr, ?_, List.nodup_cons.mpr ⟨hwfr, h2⟩, ?_⟩
      · rw [show visitNeighbors dep (w :: ws) V C acc
              = visitNeighbors dep ws (V ++ [w]) (C ++ [w]) (acc ++ [(w, dep)]) by
            simp [visitNeighbors, hw]]
        rw [h1]
        simp
      · intro x
        constructor
        · intro hx
          rcases List.mem_cons.mp hx with rfl | hx'
          · exact ⟨List.mem_cons_self x ws, hw⟩
          · have := (h3 x).mp hx'
            refine ⟨List.mem_cons_of_mem w this.1, fun hc => this.2 ?_⟩
            exact List.mem_append_left _ hc
        · rintro ⟨hx, hxv⟩
          rcases List.mem_cons.mp hx with rfl | hx'
          · exact List.mem_cons_self x fr
          · by_cases hxw : x = w
            · exact hxw ▸ List.mem_cons_self w fr
            · refine List.mem_cons_of_mem w ((h3 x).mpr ⟨hx', ?_⟩)
              intro hc
              rcases List.mem_append.mp hc with hc' | hc'
              · exact hxv hc'
              · exact hxw (List.mem_singleton.mp hc')

/-! ## The BFS loop invariant: final-state and preservation lemmas -/

theorem bfs_empty_final {g : Graph} {s : String} {d : ℕ} {V C : List String}
    (inv : BfsInv g s d [] V C) :
    ∀ v, v ∈ C ↔ v ≠ s ∧ reachB g s d v = true := by
  have complete : ∀ j, j ≤ d → ∀ v, reachB g s j v = true → v ∈ V := by
    intro j
    induction j with
    | zero => intro _ v hv; exact (reachB_zero_iff g s v).mp hv ▸ inv.smem
    | succ j ih =>
      intro hjd v hv
      rcases (reachB_succ_iff g s j v).mp hv with h' | ⟨u, _, hru, hadj⟩
      · exact ih (Nat.le_of_succ_le hjd) v h'
      · have hu : u ∈ V := ih (Nat.le_of_succ_le hjd) u hru
        obtain ⟨j', hj', hdist⟩ := exists_atDist g s hru
        exact inv.expanded u hu (by simp) j' hdist
          (Nat.lt_of_le_of_lt hj' (Nat.lt_of_lt_of_le (Nat.lt_succ_self j) hjd)) v hadj
  intro v
  constructor
  · intro hv
    have hvV : v ∈ V := (inv.vc v).mpr (Or.inr hv)
    refine ⟨fun hvs => inv.snotc (hvs ▸ hv), inv.vreach v hvV⟩
  · rintro ⟨hvs, hr⟩
    have hvV : v ∈ V := complete d (le_refl d) v hr
    rcases (inv.vc v).mp hvV with rfl | hc
    · exact absurd rfl hvs
    · exact hc

theorem bfsInv_prune {g : Graph} {s : String} {d : ℕ} {x : String} {k : ℕ}
    {rest : List (String × ℕ)} {V C : List String}
    (inv : BfsInv g s d ((x, k) :: rest) V C) (hk : d ≤ k) :
    BfsInv g s d rest V C := by
  obtain ⟨hxV, hxdist, hkd⟩ := inv.qmem (x, k) (List.mem_cons_self _ _)
  have hkd' : k = d := Nat.le_antisymm hkd hk
  have hmin : ∀ r ∈ (x, k) :: rest, k ≤ r.2 := by
    intro r hr
    rcases List.mem_cons.mp hr with rfl | hr'
    · exact le_refl k
    · exact (List.pairwise_cons.mp inv.qsorted).1 r hr'
  refine ⟨?_, inv.vreach, inv.smem, inv.vnodes, ?_, ?_, ?_, ?_, ?_, inv.vc,
    inv.snotc, inv.cnodup⟩
  · exact fun p hp => inv.qmem p (List.mem_cons_of_mem _ hp)
  · exact (List.pairwise_cons.mp inv.qsorted).2
  · exact fun p hp r hr =>
      inv.qspan p (List.mem_cons_of_mem _ hp) r (List.mem_cons_of_mem _ hr)
  · exact (List.nodup_cons.mp (by simpa using inv.qnodup)).2
  · -- expanded
    intro v hv hvq j hdist hjd w hadj
    by_cases hvx : v = x
    · subst hvx
      have : j = k := atDist_unique hdist hxdist
      omega
    · refine inv.expanded v hv ?_ j hdist hjd w hadj
      intro hc
      simp only [List.map_cons, List.mem_cons] at hc
      rcases hc with h' | h'
      · exact hvx h'
      · exact hvq h'
  · -- frontier
    intro p hp hpmin v hv
    have hpk : p.2 = k := by
      have h1 : k ≤ p.2 := hmin p (List.mem_cons_of_mem _ hp)
      have h2 : p.2 ≤ d := (inv.qmem p (List.mem_cons_of_mem _ hp)).2.2
      omega
    exact inv.frontier (x, k) (List.mem_cons_self _ _) hmin v (hpk ▸ hv)

theorem bfsInv_expand {g : Graph} {s : String} {d : ℕ} {x : String} {k : ℕ}
    {rest : List (String × ℕ)} {V C : List String} (hcl : ClosedGraph g)
    (inv : BfsInv g s d ((x, k) :: rest) V C) (hk : k < d)
    {fr : List String} (hfrnd : fr.Nodup)
    (hfrmem : ∀ w, w ∈ fr ↔ w ∈ (g.succList x ++ g.predList x) ∧ w ∉ V) :
    BfsInv g s d (rest ++ fr.map (fun w => (w, k+1))) (V ++ fr) (C ++ fr) := by
  obtain ⟨hxV, hxdist, hkd⟩ := inv.qmem (x, k) (List.mem_cons_self _ _)
  have hxnodes : x ∈ g.nodes := inv.vnodes x hxV
  have hmin : ∀ r ∈ (x, k) :: rest, k ≤ r.2 := by
    intro r hr
    rcases List.mem_cons.mp hr with rfl | hr'
    · exact le_refl k
    · exact (List.pairwise_cons.mp inv.qsorted).1 r hr'
  have hballk : ∀ v, reachB g s k v = true → v ∈ V :=
    inv.frontier (x, k) (List.mem_cons_self _ _) hmin
  have hfr_adj : ∀ w ∈ fr, g.adjU x w = true :=
    fun w hw => (mem_neighbors_iff g x w).mp ((hfrmem w).mp hw).1
  have hfr_notV : ∀ w ∈ fr, w ∉ V := fun w hw => ((hfrmem w).mp hw).2
  have hfr_nodes : ∀ w ∈ fr, w ∈ g.nodes :=
    fun w hw => mem_nodes_of_neighbor hcl ((hfrmem w).mp hw).1
  have hfr_dist : ∀ w ∈ fr, AtDist g s (k+1) w := by
    intro w hw
    constructor
    · rw [reachB_succ_iff]
      exact Or.inr ⟨x, hxnodes, hxdist.1, hfr_adj w hw⟩
    · intro i hi
      by_contra hcon
      have ht : reachB g s i w = true := by
        revert hcon; cases reachB g s i w <;> simp
      have hkw : reachB g s k w = true := reachB_mono g s (Nat.lt_succ_iff.mp hi) ht
      exact hfr_notV w hw (hballk w hkw)
  have hrest_depth : ∀ r ∈ rest, k ≤ r.2 ∧ r.2 ≤ k + 1 := fun r hr =>
    ⟨(List.pairwise_cons.mp inv.qsorted).1 r hr,
     inv.qspan (x, k) (List.mem_cons_self _ _) r (List.mem_cons_of_mem _ hr)⟩
  have hmapfst : (fr.map (fun w => (w, k+1))).map Prod.fst = fr := by
    rw [List.map_map]; exact List.map_id fr
  have hqmem : ∀ p ∈ rest ++ fr.map (fun w => (w, k+1)),
      p.1 ∈ V ++ fr ∧ AtDist g s p.2 p.1 ∧ p.2 ≤ d := by
    intro p hp
    rcases List.mem_append.mp hp with hp' | hp'
    · obtain h := inv.qmem p (List.mem_cons_of_mem _ hp')
      exact ⟨List.mem_append_left _ h.1, h.2.1, h.2.2⟩
    · obtain ⟨w, hw, rfl⟩ := List.mem_map.mp hp'
      exact ⟨List.mem_append_right _ hw, hfr_dist w hw, Nat.succ_le_of_lt hk⟩
  have hexpanded : ∀ v ∈ V ++ fr,
      v ∉ (rest ++ fr.map (fun w => (w, k+1))).map Prod.fst →
      ∀ j, AtDist g s j v → j < d → ∀ w, g.adjU v w = true → w ∈ V ++ fr := by
    intro v hv hvq j hdist hjd w hadj
    rw [List.map_append, hmapfst] at hvq
    have hvrest : v ∉ rest.map Prod.fst := fun hc => hvq (List.mem_append_left _ hc)
    have hvfr : v ∉ fr := fun hc => hvq (List.mem_append_right _ hc)
    rcases List.mem_append.mp hv with hvV | hvF
    · by_cases hvx : v = x
      · subst hvx
        have hw' : w ∈ g.succList v ++ g.predList v := (mem_neighbors_iff g v w).mpr hadj
        by_cases hwV : w ∈ V
        · exact List.mem_append_left _ hwV
        · exact List.mem_append_right _ ((hfrmem w).mpr ⟨hw', hwV⟩)
      · refine List.mem_append_left _ (inv.expanded v hvV ?_ j hdist hjd w hadj)
        intro hc
        simp only [List.map_cons, List.mem_cons] at hc
        rcases hc with h' | h'
        · exact hvx h'
        · exact hvrest h'
    · exact absurd hvF hvfr
  refine ⟨hqmem, ?_, List.mem_append_left _ inv.smem, ?_, ?_, ?_, ?_, hexpanded,
    ?_, ?_, ?_, ?_⟩
  · -- vreach
    intro v hv
    rcases List.mem_append.mp hv with hv' | hv'
    · exact inv.vreach v hv'
    · exact reachB_mono g s (Nat.succ_le_of_lt hk) (hfr_dist v hv').1
  · -- vnodes
    intro v hv
    rcases List.mem_append.mp hv with hv' | hv'
    · exact inv.vnodes v hv'
    · exact hfr_nodes v hv'
  · -- qsorted
    rw [List.pairwise_append]
    refine ⟨(List.pairwise_cons.mp inv.qsorted).2, ?_, ?_⟩
    · have htriv : ∀ (l : List String), l.Pairwise (fun _ _ => k+1 ≤ k+1) := by
        intro l
        induction l with
        | nil => exact List.Pairwise.nil
        | cons a t ih => exact List.Pairwise.cons (fun _ _ => le_refl _) ih
      exact List.pairwise_map.mpr (htriv fr)
    · intro a ha b hb
      obtain ⟨w, hw, rfl⟩ := List.mem_map.mp hb
      exact (hrest_depth a ha).2
  · -- qspan
    intro p hp r hr
    rcases List.mem_append.mp hp with hp' | hp' <;>
      rcases List.mem_append.mp hr with hr' | hr'
    · exact inv.qspan p (List.mem_cons_of_mem _ hp') r (List.mem_cons_of_mem _ hr')
    · obtain ⟨w, hw, rfl⟩ := List.mem_map.mp hr'
      have := (hrest_depth p hp').1
      simp only []
      omega
    · obtain ⟨w, hw, rfl⟩ := List.mem_map.mp hp'
      have := (hrest_depth r hr').2
      simp only []
      omega
    · obtain ⟨w, hw, rfl⟩ := List.mem_map.mp hp'
      obtain ⟨w', hw', rfl⟩ := List.mem_map.mp hr'
      simp only []
      omega
  · -- qnodup
    rw [List.map_append, hmapfst, List.nodup_append]
    refine ⟨(List.nodup_cons.mp (by simpa using inv.qnodup)).2, hfrnd, ?_⟩
    intro a ha ha'
    obtain ⟨p, hp, rfl⟩ := List.mem_map.mp ha
    exact hfr_notV _ ha' (inv.qmem p (List.mem_cons_of_mem _ hp)).1
  · -- frontier
    intro p hp hpmin v hv
    have hp2 : p.2 = k ∨ p.2 = k + 1 := by
      rcases List.mem_append.mp hp with hp' | hp'
      · have := hrest_depth p hp'
        omega
      · obtain ⟨w, hw, rfl⟩ := List.mem_map.mp hp'
        right; rfl
    rcases hp2 with hpk | hpk1
    · exact List.mem_append_left _ (hballk v (hpk ▸ hv))
    · rw [hpk1] at hv
      rcases (reachB_succ_iff g s k v).mp hv with h' | ⟨u, hun, hru, hadj⟩
      · exact List.mem_append_left _ (hballk v h')
      · have huV : u ∈ V := hballk u hru
        obtain ⟨j', hj'le, hj'dist⟩ := exists_atDist g s hru
        have hunotq : u ∉ (rest ++ fr.map (fun w => (w, k+1))).map Prod.fst := by
          intro hc
          rw [List.map_append, hmapfst] at hc
          rcases List.mem_append.mp hc with hc' | hc'
          · obtain ⟨r, hr, hfst⟩ := List.mem_map.mp hc'
            have hr2 : r.2 = k + 1 := by
              have h1 := hpmin r (List.mem_append_left _ hr)
              have h2 := (hrest_depth r hr).2
              omega
            have hdist_u : AtDist g s r.2 r.1 :=
              (inv.qmem r (List.mem_cons_of_mem _ hr)).2.1
            rw [hfst] at hdist_u
            have := atDist_unique hj'dist hdist_u
            omega
          · exact hfr_notV u hc' huV
        exact hexpanded u (List.mem_append_left _ huV) hunotq j' hj'dist
          (by omega) v hadj
  · -- vc
    intro v
    rw [List.mem_append, List.mem_append, inv.vc v]
    tauto
  · -- snotc
    intro hc
    rcases List.mem_append.mp hc with hc' | hc'
    · exact inv.snotc hc'
    · exact hfr_notV s hc' inv.smem
  · -- cnodup
    rw [List.nodup_append]
    refine ⟨inv.cnodup, hfrnd, ?_⟩
    intro a ha ha'
    exact hfr_notV a ha' ((inv.vc a).mpr (Or.inr ha))

theorem bfsLoop_correct (g : Graph) (s : String) (d : ℕ) (hcl : ClosedGraph g) :
    ∀ (fuel : ℕ) (q : List (String × ℕ)) (V C : List String),
    BfsInv g s d q V C →
    q.length + (g.nodes.toFinset \ V.toFinset).card ≤ fuel →
    (∀ v, v ∈ bfsLoop g d fuel q V C ↔ v ≠ s ∧ reachB g s d v = true) ∧
    (bfsLoop g d fuel q V C).Nodup := by
  intro fuel
  induction fuel with
  | zero =>
    intro q V C inv hm
    have hq : q = [] := List.length_eq_zero.mp (by omega)
    subst hq
    exact ⟨bfs_empty_final inv, inv.cnodup⟩
  | succ fuel ih =>
    intro q V C inv hm
    match q with
    | [] => exact ⟨bfs_empty_final inv, inv.cnodup⟩
    | (x, k) :: rest =>
      by_cases hk : d ≤ k
      · have inv' := bfsInv_prune inv hk
        have hm' : rest.length + (g.nodes.toFinset \ V.toFinset).card ≤ fuel := by
          rw [List.length_cons] at hm
          omega
        have h := ih rest V C inv' hm'
        simpa [bfsLoop, hk] using h
      · have hklt : k < d := Nat.lt_of_not_le hk
        obtain ⟨fr, heq, hfrnd, hfrmem⟩ :=
          visitNeighbors_spec (k+1) (g.succList x ++ g.predList x) V C []
        have inv' := bfsInv_expand hcl inv hklt hfrnd hfrmem
        have hfr_sub : fr.toFinset ⊆ g.nodes.toFinset \ V.toFinset := by
          intro a ha
          rw [List.mem_toFinset] at ha
          rw [Finset.mem_sdiff, List.mem_toFinset, List.mem_toFinset]
          exact ⟨mem_nodes_of_neighbor hcl ((hfrmem a).mp ha).1, ((hfrmem a).mp ha).2⟩
      -- one BFS step pops one entry and visits `fr.length` fresh nodes
        have hsplit : g.nodes.toFinset \ (V ++ fr).toFinset
            = (g.nodes.toFinset \ V.toFinset) \ fr.toFinset := by
          ext a
          simp only [List.toFinset_append, Finset.mem_sdiff, Finset.mem_union]
          tauto
        have hcard : (g.nodes.toFinset \ (V ++ fr).toFinset).card
            = (g.nodes.toFinset \ V.toFinset).card - fr.length := by
          rw [hsplit, Finset.card_sdiff hfr_sub, List.toFinset_card_of_nodup hfrnd]
        have hle : fr.length ≤ (g.nodes.toFinset \ V.toFinset).card := by
          calc fr.length = fr.toFinset.card := (List.toFinset_card_of_nodup hfrnd).symm
            _ ≤ _ := Finset.card_le_card hfr_sub
        have hm' : (rest ++ fr.map (fun w => (w, k+1))).length +
            (g.nodes.toFinset \ (V ++ fr).toFinset).card ≤ fuel := by
          rw [List.length_append, List.length_map, hcard]
          rw [List.length_cons] at hm
          omega
        have h := ih _ _ _ inv' hm'
        simpa [bfsLoop, hk, heq] using h

theorem bfs_characterization (g : Graph) (hcl : ClosedGraph g)
    (entity_id : String) (max_depth : ℕ) :
    (∀ v, v ∈ find_connected_entities g entity_id max_depth ↔
       v ≠ entity_id ∧ reachB g entity_id max_depth v = true) ∧
    (find_connected_entities g entity_id max_depth).Nodup ∧
    (entity_id ∉ g.nodes → find_connected_entities g entity_id max_depth = []) := by
  by_cases hs : entity_id ∈ g.nodes
  · have inv0 : BfsInv g entity_id max_depth [(entity_id, 0)] [entity_id] [] := by
      refine ⟨?_, ?_, List.mem_singleton_self _, ?_, ?_, ?_, ?_, ?_, ?_, ?_, ?_, ?_⟩
      · intro p hp
        rw [List.mem_singleton] at hp
        subst hp
        refine ⟨List.mem_singleton_self _, ⟨?_, fun i hi => absurd hi (Nat.not_lt_zero i)⟩,
          Nat.zero_le _⟩
        simp [reachB]
      · intro v hv
        rw [List.mem_singleton] at hv
        exact hv ▸ reachB_self g entity_id max_depth
      · intro v hv
        rw [List.mem_singleton] at hv
        exact hv ▸ hs
      · exact List.pairwise_singleton _ _
      · intro p hp r hr
        rw [List.mem_singleton] at hp hr
        subst hp; subst hr
        omega
      · simp
      · intro v hv hvq
        rw [List.mem_singleton] at hv
        exact absurd (by simp [hv]) hvq
      · intro p hp hpmin v hv
        rw [List.mem_singleton] at hp
        subst hp
        rw [reachB_zero_iff] at hv
        simp [hv]
      · intro v
        simp
      · exact List.not_mem_nil _
      · exact List.nodup_nil
    have hm0 : [(entity_id, 0)].length +
        (g.nodes.toFinset \ [entity_id].toFinset).card ≤ g.nodes.length + 1 := by
      have h1 : (g.nodes.toFinset \ [entity_id].toFinset).card ≤ g.nodes.toFinset.card :=
        Finset.card_le_card (Finset.sdiff_subset)
      have h2 : g.nodes.toFinset.card ≤ g.nodes.length := g.nodes.toFinset_card_le
      simp only [List.length_singleton]
      omega
    have h := bfsLoop_correct g entity_id max_depth hcl (g.nodes.length + 1)
      [(entity_id, 0)] [entity_id] [] inv0 hm0
    rw [show find_connected_entities g entity_id max_depth
        = bfsLoop g max_depth (g.nodes.length + 1) [(entity_id, 0)] [entity_id] []
        from by rw [find_connected_entities, if_pos hs]]
    exact ⟨h.1, h.2, fun hc => absurd hs hc⟩
  · have hempty : find_connected_entities g entity_id max_depth = [] := by
      rw [find_connected_entities, if_neg hs]
    refine ⟨?_, by simp [hempty], fun _ => hempty⟩
    intro v
    rw [hempty]
    simp only [List.not_mem_nil, false_iff]
    rintro ⟨hne, hr⟩
    rw [reachB_of_not_mem g entity_id hs] at hr
    exact hne (by simpa using hr)

/-! ## Risk bucketing -/

theorem bucketRiskLevel_iff (r : ℚ) :
    (bucketRiskLevel r = .critical ↔ 0.8 ≤ r) ∧
    (bucketRiskLevel r = .high ↔ 0.6 ≤ r ∧ r < 0.8) ∧
    (bucketRiskLevel r = .medium ↔ 0.3 ≤ r ∧ r < 0.6) ∧
    (bucketRiskLevel r = .low ↔ r < 0.3) := by
  unfold bucketRiskLevel
  split_ifs with h1 h2 h3 <;>
    refine ⟨⟨fun hh => ?_, fun hh => ?_⟩, ⟨fun hh => ?_, fun hh => ?_⟩,
      ⟨fun hh => ?_, fun hh => ?_⟩, ⟨fun hh => ?_, fun hh => ?_⟩⟩ <;>
    first
      | rfl
      | assumption
      | (refine ⟨by linarith, by linarith⟩)
      | linarith
      | (exact absurd hh (by decide))

/-! ## Claim C2: SAR risk propagation -/

theorem lookupA_bump_fold (lvl : RiskLevel) :
    ∀ (ids : List String), ids.Nodup →
    ∀ (es : List (String × Entity)) (id : String),
    lookupA (ids.foldl (fun es eid =>
        if (lookupA es eid).isSome then updateA es eid (bumpEntityRisk lvl) else es) es) id
      = if id ∈ ids then (lookupA es id).map (bumpEntityRisk lvl)
        else lookupA es id := by
  intro ids
  induction ids with
  | nil => intro _ es id; simp
  | cons hd tl ih =>
    intro hnd es id
    obtain ⟨hhd, htl⟩ := List.nodup_cons.mp hnd
    rw [List.foldl_cons]
    rw [ih htl]
    by_cases hid : id = hd
    · subst hid
      rw [if_neg hhd, if_pos (List.mem_cons_self _ _)]
      cases hlk : lookupA es id with
      | none =>
        have hfalse : ¬ ((none : Option Entity).isSome = true) := by simp
        rw [if_neg hfalse]
        simpa using hlk
      | some e =>
        have htrue : ((some e : Option Entity).isSome = true) := rfl
        rw [if_pos htrue, lookupA_updateA_self, hlk]
    · have hes : lookupA (if (lookupA es hd).isSome then
          updateA es hd (bumpEntityRisk lvl) else es) id = lookupA es id := by
        split_ifs
        · exact lookupA_updateA_ne es hd id _ hid
        · rfl
      rw [hes]
      by_cases htl' : id ∈ tl
      · rw [if_pos htl', if_pos (List.mem_cons_of_mem _ htl')]
      · rw [if_neg htl', if_neg (by
          intro hc
          rcases List.mem_cons.mp hc with h' | h'
          · exact hid h'
          · exact htl' h')]

/-- Claim C2: on filing a SAR, each involved entity already in the store has
its risk score incremented by the step keyed to the SAR's risk level
(LOW +0.10, MEDIUM +0.25, HIGH +0.50, CRITICAL +0.80), clamped to 1.0, and
its risk level recomputed by the bucketing rule; involved ids without an
entity record are skipped with no mutation. -/
theorem add_sar_risk_propagation (s : GState) (sar : SAR)
    (hnd : sar.entities_involved.Nodup) (id : String) :
    (∀ e, lookupA s.entities id = some e → id ∈ sar.entities_involved →
      lookupA (add_sar s sar).entities id = some
        { e with risk_score := min 1 (e.risk_score + risk_increase sar.risk_level),
                 risk_level :=
                   bucketRiskLevel (min 1 (e.risk_score + risk_increase sar.risk_level)) }) ∧
    (lookupA s.entities id = none → lookupA (add_sar s sar).entities id = none) ∧
    (id ∉ sar.entities_involved →
      lookupA (add_sar s sar).entities id = lookupA s.entities id) ∧
    (risk_increase .low = 0.1 ∧ risk_increase .medium = 0.25 ∧
     risk_increase .high = 0.5 ∧ risk_increase .critical = 0.8) ∧
    (∀ r : ℚ, (bucketRiskLevel r = .critical ↔ 0.8 ≤ r) ∧
      (bucketRiskLevel r = .high ↔ 0.6 ≤ r ∧ r < 0.8) ∧
      (bucketRiskLevel r = .medium ↔ 0.3 ≤ r ∧ r < 0.6) ∧
      (bucketRiskLevel r = .low ↔ r < 0.3)) := by
  have hent : (add_sar s sar).entities = sar.entities_involved.foldl
      (fun es eid => if (lookupA es eid).isSome then
        updateA es eid (bumpEntityRisk sar.risk_level) else es) s.entities := rfl
  refine ⟨?_, ?_, ?_, ⟨rfl, rfl, rfl, rfl⟩, bucketRiskLevel_iff⟩
  · intro e he hid
    rw [hent, lookupA_bump_fold sar.risk_level sar.entities_involved hnd,
      if_pos hid, he]
    rfl
  · intro h
    rw [hent, lookupA_bump_fold sar.risk_level sar.entities_involved hnd, h]
    split_ifs <;> rfl
  · intro h
    rw [hent, lookupA_bump_fold sar.risk_level sar.entities_involved hnd, if_neg h]

theorem add_sar_risk_propagation_witness :
    (∃ e, lookupA (add_sar c2State c2Sar).entities "E1" = some e ∧
       e.risk_score = 0.5 ∧ e.risk_level = .medium) ∧
    lookupA (add_sar c2State c2Sar).entities "UNKNOWN" = none := by
  have h := add_sar_risk_propagation c2State c2Sar (by decide) "E1"
  have h2 := add_sar_risk_propagation c2State c2Sar (by decide) "UNKNOWN"
  exact ⟨⟨_, h.1 c2Entity (by decide) (by decide), by decide, by decide⟩,
    h2.2.1 (by decide)⟩

/-! ## Claim C5: depth-bounded connectivity -/

/-- Claim C5: for every id and depth bound, `find_connected_entities`
returns exactly the entities reachable by an undirected path of at most
`max_depth` edges, the start node excluded; unknown ids give the empty
set. -/
theorem find_connected_entities_reachability (g : Graph) (hcl : ClosedGraph g)
    (entity_id : String) (max_depth : ℕ) :
    (∀ v, v ∈ find_connected_entities g entity_id max_depth ↔
       v ≠ entity_id ∧ reachB g entity_id max_depth v = true) ∧
    (entity_id ∉ g.nodes → find_connected_entities g entity_id max_depth = []) := by
  obtain ⟨h1, _, h3⟩ := bfs_characterization g hcl entity_id max_depth
  exact ⟨h1, h3⟩

theorem find_connected_entities_reachability_witness :
    ("C" ∈ find_connected_entities c5Graph "A" 2 ∧
     "D" ∉ find_connected_entities c5Graph "A" 2) ∧
    find_connected_entities c5Graph "X" 2 = [] := by
  have h := find_connected_entities_reachability c5Graph (by decide) "A" 2
  refine ⟨⟨(h.1 "C").mpr (by decide), fun hc => ?_⟩, ?_⟩
  · exact absurd ((h.1 "D").mp hc).2 (by decide)
  · exact (find_connected_entities_reachability c5Graph (by decide) "X" 2).2 (by decide)

/-! ## Claim C7: aggregate risk scoring -/

/-- Claim C7: the aggregate score is the sum of the four pre-clamped terms,
clamped to 1.0, and the risk level is obtained from the bucketing rule with
0.3, 0.6, 0.8 as inclusive lower bounds. -/
theorem compute_risk_score_spec (entity_connections sar_count : ℕ)
    (transaction_volume : ℚ) (pattern_count : ℕ) :
    compute_risk_score entity_connections sar_count transaction_volume pattern_count
      = (min 1 (aggregateScore entity_connections sar_count transaction_volume
            pattern_count),
         bucketRiskLevel (aggregateScore entity_connections sar_count
            transaction_volume pattern_count)) ∧
    (compute_risk_score entity_connections sar_count transaction_volume
        pattern_count).1 ≤ 1 ∧
    ((bucketRiskLevel (aggregateScore entity_connections sar_count
          transaction_volume pattern_count) = .critical
        ↔ 0.8 ≤ aggregateScore entity_connections sar_count transaction_volume
            pattern_count) ∧
     (bucketRiskLevel (aggregateScore entity_connections sar_count
          transaction_volume pattern_count) = .high
        ↔ 0.6 ≤ aggregateScore entity_connections sar_count transaction_volume
              pattern_count
          ∧ aggregateScore entity_connections sar_count transaction_volume
              pattern_count < 0.8) ∧
     (bucketRiskLevel (aggregateScore entity_connections sar_count
          transaction_volume pattern_count) = .medium
        ↔ 0.3 ≤ aggregateScore entity_connections sar_count transaction_volume
              pattern_count
          ∧ aggregateScore entity_connections sar_count transaction_volume
              pattern_count < 0.6) ∧
     (bucketRiskLevel (aggregateScore entity_connections sar_count
          transaction_volume pattern_count) = .low
        ↔ aggregateScore entity_connections sar_count transaction_volume
            pattern_count < 0.3)) := by
  refine ⟨?_, ?_, bucketRiskLevel_iff _⟩
  · simp only [compute_risk_score, aggregateScore, zero_add]
  · simp only [compute_risk_score, zero_add]
    exact min_le_left _ _

/-! ## Claim C9 (amended): unrecognized enum strings -/

/-- Claim C9 (amended): an unrecognized risk-level or activity-type string
makes the create route fail with no mutation of the store, but the failure
is delivered through the same `KeyError` branch (HTTP 400 "Missing field")
as a missing required field, not as a distinct failure. -/
theorem invalid_enum_same_failure (s : GState)
    (eid nm ty rl : String) (rsc : Option ℚ)
    (sid : String) (fd : ℤ) (atName : String) (ents txs : Option (List String))
    (narr rl2 : Option String) (amt : Option ℚ) (tps tpe : Option ℤ)
    (h1 : parseRiskLevelName (pyUpper rl) = none)
    (h2 : parseActivityTypeName (pyUpper atName) = none) :
    add_entity_route s ⟨some eid, some nm, some ty, rsc, some rl⟩
      = (ApiResponse.missingField (pyUpper rl), s) ∧
    add_sar_route s ⟨some sid, some fd, some atName, ents, txs, narr, rl2, amt, tps, tpe⟩
      = (ApiResponse.missingField (pyUpper atName), s) ∧
    add_entity_route s ⟨some eid, none, some ty, rsc, some rl⟩
      = (ApiResponse.missingField "name", s) := by
  refine ⟨?_, ?_, rfl⟩
  · simp [add_entity_route, h1]
  · simp [add_sar_route, h2]

theorem invalid_enum_same_failure_witness :
    add_entity_route emptyState badEntityReq
      = (ApiResponse.missingField "BANANA", emptyState) ∧
    add_sar_route emptyState badSarReq
      = (ApiResponse.missingField "WEIRD_TYPE", emptyState) := by
  have h := invalid_enum_same_failure emptyState "E1" "Nm" "person" "banana" none
    "S1" 0 "weird_type" (some []) (some []) (some "n") (some "high") (some 0)
    (some 0) (some 0) (by decide) (by decide)
  exact ⟨h.1, h.2.1⟩

/-- Claim C9 as stated is false on the code: the unrecognized enum string
lands in the very `missingField` (KeyError → 400) failure a missing field
produces, so the failure is not distinct; the store is still unmutated. -/
theorem c9_counterexample :
    (add_entity_route emptyState badEntityReq).1 = ApiResponse.missingField "BANANA" ∧
    (add_entity_route emptyState missingNameReq).1 = ApiResponse.missingField "name" ∧
    (add_entity_route emptyState badEntityReq).2 = emptyState := by decide

/-! ## Claim C10: stub entities -/

theorem Graph.addEdge_nodes (g : Graph) (e : EdgeEntry) :
    (g.addEdge e).nodes = g.nodes := by
  unfold Graph.addEdge; split_ifs <;> rfl

/-- Claim C10: an id referenced only as transaction endpoint becomes a
graph node but never an entity record: entity map untouched (so
`total_entities` unchanged), `graph_nodes` grows, and
`compute_entity_risk_score` yields 0.0 for it. -/
theorem stub_entities_spec (s : GState) (t : Transaction) :
    (add_transaction s t).entities = s.entities ∧
    t.sender_id ∈ (add_transaction s t).graph.nodes ∧
    t.receiver_id ∈ (add_transaction s t).graph.nodes ∧
    (get_system_stats (add_transaction s t)).total_entities
      = (get_system_stats s).total_entities ∧
    (t.sender_id ∉ s.graph.nodes →
      (get_system_stats s).graph_nodes
        < (get_system_stats (add_transaction s t)).graph_nodes) ∧
    (lookupA s.entities t.sender_id = none →
      compute_entity_risk_score (add_transaction s t) t.sender_id = 0) := by
  refine ⟨rfl, ?_, ?_, rfl, ?_, ?_⟩
  · simp only [add_transaction, Graph.addEdge_nodes]
    split_ifs with hA hB hB <;> simp_all [List.mem_append]
  · simp only [add_transaction, Graph.addEdge_nodes]
    split_ifs with hA hB hB <;> simp_all [List.mem_append]
  · intro hs
    simp only [get_system_stats, add_transaction, Graph.addEdge_nodes]
    split_ifs with hB <;> simp [List.length_append]
  · intro hnone
    unfold compute_entity_risk_score
    rw [show (add_transaction s t).entities = s.entities from rfl, hnone]

theorem stub_entities_spec_witness :
    lookupA c10State.entities "A" = none ∧
    "A" ∈ c10State.graph.nodes ∧
    compute_entity_risk_score c10State "A" = 0 ∧
    (get_system_stats c10State).total_entities = 0 ∧
    (get_system_stats c10State).graph_nodes = 2 := by
  have h := stub_entities_spec emptyState (tx "T1" 0 500 "A" "B")
  exact ⟨by decide, h.2.1, h.2.2.2.2.2 (by decide), by decide, by decide⟩

/-! ## Claim C1: parallel transactions on one ordered pair -/

theorem filter_replace_nil (p : EdgeEntry → Bool) (e : EdgeEntry) :
    ∀ (l : List EdgeEntry), l.filter p = [] →
    (l.map (fun x => if p x then e else x)).filter p = [] := by
  intro l
  induction l with
  | nil => simp
  | cons a t ih =>
    intro h
    rw [List.filter_cons] at h
    by_cases ha : p a = true
    · rw [if_pos ha] at h
      cases h
    · rw [if_neg ha] at h
      simp only [List.map_cons]
      rw [show (if p a = true then e else a) = a from if_neg ha]
      rw [List.filter_cons, if_neg ha]
      exact ih h

theorem upsert_edge_filter (e : EdgeEntry) (hpe : edgeKeyMatches e.src e.dst e = true) :
    ∀ (l : List EdgeEntry),
    (l.filter (edgeKeyMatches e.src e.dst)).length ≤ 1 →
    ((if l.any (edgeKeyMatches e.src e.dst) then
        l.map (fun x => if edgeKeyMatches e.src e.dst x then e else x)
      else l ++ [e]).filter (edgeKeyMatches e.src e.dst)) = [e] := by
  intro l
  induction l with
  | nil => intro _; simp [hpe]
  | cons a t ih =>
    intro h
    by_cases ha : edgeKeyMatches e.src e.dst a = true
    · have hany : (a :: t).any (edgeKeyMatches e.src e.dst) = true := by
        simp [List.any_cons, ha]
      rw [if_pos hany]
      have htnil : t.filter (edgeKeyMatches e.src e.dst) = [] := by
        rw [List.filter_cons, if_pos ha] at h
        simp only [List.length_cons] at h
        have : (t.filter (edgeKeyMatches e.src e.dst)).length = 0 := by omega
        exact List.length_eq_zero.mp this
      simp only [List.map_cons]
      rw [show (if edgeKeyMatches e.src e.dst a = true then e else a) = e from if_pos ha]
      rw [List.filter_cons, if_pos hpe]
      rw [filter_replace_nil _ _ t htnil]
    · rw [List.filter_cons, if_neg ha] at h
      have := ih h
      by_cases hany : t.any (edgeKeyMatches e.src e.dst) = true
      · have hany' : (a :: t).any (edgeKeyMatches e.src e.dst) = true := by
          simp [List.any_cons, hany]
        rw [if_pos hany']
        simp only [List.map_cons]
        rw [show (if edgeKeyMatches e.src e.dst a = true then e else a) = a from if_neg ha]
        rw [List.filter_cons, if_neg ha]
        rwa [if_pos hany] at this
      · have hany' : ¬ (a :: t).any (edgeKeyMatches e.src e.dst) = true := by
          simp only [List.any_cons, Bool.or_eq_true]
          rintro (hc | hc)
          · exact ha hc
          · exact hany hc
        rw [if_neg hany']
        rw [List.cons_append, List.filter_cons, if_neg ha]
        rw [if_neg hany] at this
        exact this

theorem add_transaction_edges (s : GState) (t : Transaction) :
    (add_transaction s t).graph.edges =
      (if s.graph.edges.any (edgeKeyMatches t.sender_id t.receiver_id) then
        s.graph.edges.map (fun x =>
          if edgeKeyMatches t.sender_id t.receiver_id x then
            { src := t.sender_id, dst := t.receiver_id,
              transaction_id := t.transaction_id, amount := t.amount,
              timestamp := t.timestamp, transaction_type := t.transaction_type }
          else x)
      else s.graph.edges ++
        [{ src := t.sender_id, dst := t.receiver_id,
           transaction_id := t.transaction_id, amount := t.amount,
           timestamp := t.timestamp, transaction_type := t.transaction_type }]) := by
  simp only [add_transaction, Graph.addEdge]
  split_ifs <;> rfl

/-- Claim C1 (amended): both parallel transactions are retained in the
transactions map under their own ids, but the `DiGraph` keeps exactly one
directed edge per ordered (sender, receiver) pair, carrying the
`transaction_id` of the most recently added transaction. -/
theorem parallel_transactions_collapse (s : GState) (t1 t2 : Transaction)
    (hs : t1.sender_id = t2.sender_id) (hr : t1.receiver_id = t2.receiver_id)
    (hid : t1.transaction_id ≠ t2.transaction_id)
    (huniq : (s.graph.edges.filter
        (edgeKeyMatches t2.sender_id t2.receiver_id)).length ≤ 1) :
    lookupA (add_transaction (add_transaction s t1) t2).transactions
        t1.transaction_id = some t1 ∧
    lookupA (add_transaction (add_transaction s t1) t2).transactions
        t2.transaction_id = some t2 ∧
    ((add_transaction (add_transaction s t1) t2).graph.edges.filter
        (edgeKeyMatches t2.sender_id t2.receiver_id)).map (·.transaction_id)
      = [t2.transaction_id] := by
  have htx : (add_transaction (add_transaction s t1) t2).transactions
      = upsertA (upsertA s.transactions t1.transaction_id t1)
          t2.transaction_id t2 := rfl
  refine ⟨?_, ?_, ?_⟩
  · rw [htx, lookupA_upsertA_ne _ _ _ _ hid, lookupA_upsertA_self]
  · rw [htx, lookupA_upsertA_self]
  · have h1 : ((add_transaction s t1).graph.edges.filter
        (edgeKeyMatches t2.sender_id t2.receiver_id))
        = [{ src := t1.sender_id, dst := t1.receiver_id,
             transaction_id := t1.transaction_id, amount := t1.amount,
             timestamp := t1.timestamp, transaction_type := t1.transaction_type }] := by
      rw [add_transaction_edges]
      rw [show t1.sender_id = t2.sender_id from hs,
          show t1.receiver_id = t2.receiver_id from hr]
      have := upsert_edge_filter
        { src := t2.sender_id, dst := t2.receiver_id,
          transaction_id := t1.transaction_id, amount := t1.amount,
          timestamp := t1.timestamp, transaction_type := t1.transaction_type }
        (by simp [edgeKeyMatches]) s.graph.edges huniq
      exact this
    have h2 : ((add_transaction (add_transaction s t1) t2).graph.edges.filter
        (edgeKeyMatches t2.sender_id t2.receiver_id))
        = [{ src := t2.sender_id, dst := t2.receiver_id,
             transaction_id := t2.transaction_id, amount := t2.amount,
             timestamp := t2.timestamp, transaction_type := t2.transaction_type }] := by
      rw [add_transaction_edges]
      have := upsert_edge_filter
        { src := t2.sender_id, dst := t2.receiver_id,
          transaction_id := t2.transaction_id, amount := t2.amount,
          timestamp := t2.timestamp, transaction_type := t2.transaction_type }
        (by simp [edgeKeyMatches]) (add_transaction s t1).graph.edges
        (by rw [h1]; simp)
      exact this
    rw [h2]
    rfl

theorem parallel_transactions_collapse_witness :
    lookupA c1State.transactions "T1" = some (tx "T1" 0 100 "A" "B") ∧
    lookupA c1State.transactions "T2" = some (tx "T2" 0 200 "A" "B") ∧
    (c1State.graph.edges.filter (edgeKeyMatches "A" "B")).map
      (·.transaction_id) = ["T2"] := by
  have h := parallel_transactions_collapse emptyState (tx "T1" 0 100 "A" "B")
    (tx "T2" 0 200 "A" "B") rfl rfl (by decide) (by decide)
  exact ⟨h.1, h.2.1, h.2.2⟩

/-- Claim C1 as stated is false on the code: after adding transactions
`T1` and `T2` on the same ordered pair (A, B), the graph holds a single
A→B edge, and no edge at all is keyed by `T1`, although the transactions
map still holds `T1`. -/
theorem c1_counterexample :
    (c1State.graph.edges.filter (edgeKeyMatches "A" "B")).length = 1 ∧
    (¬ ∃ e ∈ c1State.graph.edges, e.transaction_id = "T1") ∧
    lookupA c1State.transactions "T1" = some (tx "T1" 0 100 "A" "B") := by decide

/-! ## Claim C3 (amended): structuring detection -/

theorem structuring_filters (entity_id : String) (w : ℤ) (thr : ℚ) (now : ℤ)
    (l : List Transaction) :
    ((l.filter (fun t => t.sender_id == entity_id || t.receiver_id == entity_id)).filter
       (fun t => decide (Int.fdiv (now - t.timestamp) 86400 ≤ w))).filter
       (fun t => decide (9000 ≤ t.amount ∧ t.amount < thr))
    = l.filter (fun t => decide (structuringCandidate entity_id w thr now t)) := by
  rw [List.filter_filter, List.filter_filter]
  apply List.filter_congr
  intro t _
  have hbool : ∀ (a b : Bool), (a = true ↔ b = true) → a = b := by decide
  apply hbool
  simp only [structuringCandidate, Bool.and_eq_true, Bool.or_eq_true,
    beq_iff_eq, decide_eq_true_eq]
  tauto

/-- Claim C3 (amended): structuring detection counts the transactions
touching the entity whose whole-day age at the evaluation instant is at
most `time_window_days` and whose amount lies in the literal half-open band
`[9000, threshold)` (not 90% of the threshold); a pattern is emitted iff
that count is at least 3, with `confidence = min(1, count/10)` and
`risk_level = HIGH` when the confidence exceeds 0.7 else `MEDIUM`. -/
theorem detect_structuring_spec (s : GState) (entity_id : String)
    (time_window_days : ℤ) (threshold : ℚ) (now : ℤ) :
    (detect_structuring_pattern s entity_id time_window_days threshold now = none
      ↔ (entity_id ∉ s.graph.nodes
          ∨ structuringCount s entity_id time_window_days threshold now < 3)) ∧
    (∀ p, detect_structuring_pattern s entity_id time_window_days threshold now
        = some p →
      3 ≤ structuringCount s entity_id time_window_days threshold now ∧
      entity_id ∈ s.graph.nodes ∧
      p.pattern_type = "structuring" ∧
      p.entities_involved = [entity_id] ∧
      p.transactions_involved.length
        = structuringCount s entity_id time_window_days threshold now ∧
      p.confidence_score
        = min 1 ((structuringCount s entity_id time_window_days threshold now : ℚ) / 10) ∧
      p.risk_level = (if 0.7 < min 1
          ((structuringCount s entity_id time_window_days threshold now : ℚ) / 10)
        then RiskLevel.high else RiskLevel.medium) ∧
      (∀ tid ∈ p.transactions_involved, ∃ t ∈ s.transactions.map Prod.snd,
        t.transaction_id = tid ∧
        structuringCandidate entity_id time_window_days threshold now t)) := by
  have hcount : structuringCount s entity_id time_window_days threshold now
      = ((s.transactions.map Prod.snd).filter
          (fun t => decide (structuringCandidate entity_id time_window_days
            threshold now t))).length := by
    rw [structuringCount, List.countP_eq_length_filter]
  unfold detect_structuring_pattern
  simp only [structuring_filters]
  by_cases hmem : entity_id ∈ s.graph.nodes
  · rw [if_pos hmem]
    by_cases hlen : 3 ≤ ((s.transactions.map Prod.snd).filter
        (fun t => decide (structuringCandidate entity_id time_window_days
          threshold now t))).length
    · rw [if_pos hlen]
      constructor
      · refine iff_of_false (by simp) ?_
        rintro (hc | hc)
        · exact hc hmem
        · rw [hcount] at hc
          omega
      · intro p hp
        injection hp with hp
        subst hp
        refine ⟨by rw [hcount]; exact hlen, hmem, rfl, rfl, ?_, ?_, ?_, ?_⟩
        · rw [hcount]
          exact List.length_map _ _
        · rw [hcount]
        · rw [hcount]
        · intro tid htid
          simp only [List.mem_map] at htid
          obtain ⟨t, htf, rfl⟩ := htid
          rw [List.mem_filter] at htf
          exact ⟨t, htf.1, rfl, of_decide_eq_true htf.2⟩
    · rw [if_neg hlen]
      constructor
      · refine iff_of_true rfl (Or.inr ?_)
        rw [hcount]
        omega
      · intro p hp
        exact absurd hp (by simp)
  · rw [if_neg hmem]
    constructor
    · exact iff_of_true rfl (Or.inl hmem)
    · intro p hp
      exact absurd hp (by simp)

theorem detect_structuring_spec_witness :
    ∃ p, detect_structuring_pattern c3State "A" 7 10000 c3Now = some p ∧
      p.confidence_score = 0.5 ∧ p.risk_level = .medium ∧
      p.transactions_involved.length = 5 := by
  have h := detect_structuring_spec c3State "A" 7 10000 c3Now
  cases hd : detect_structuring_pattern c3State "A" 7 10000 c3Now with
  | none => exact absurd (h.1.mp hd) (by decide)
  | some p =>
    obtain ⟨_, _, _, _, hlen, hconf, hrisk, _⟩ := h.2 p hd
    have hc : structuringCount c3State "A" 7 10000 c3Now = 5 := by decide
    refine ⟨p, rfl, ?_, ?_, ?_⟩
    · rw [hconf, hc]; decide
    · rw [hrisk, hc]; decide
    · rw [hlen, hc]

/-- Claim C3 as stated is false on the code: with threshold 20000 the
claim's band [0.9×threshold, threshold) = [18000, 20000) contains none of
the stored transactions, so no pattern should be emitted, yet the code
(literal band [9000, threshold)) emits one. -/
theorem c3_counterexample :
    (detect_structuring_pattern c3State "A" 7 20000 c3Now).isSome = true ∧
    (c3State.transactions.map Prod.snd).countP
      (fun t => decide ((t.sender_id = "A" ∨ t.receiver_id = "A") ∧
        Int.fdiv (c3Now - t.timestamp) 86400 ≤ 7 ∧
        (0.9 * 20000 ≤ t.amount ∧ t.amount < 20000))) = 0 := by decide

/-! ## Claim C4: circular-transaction detection -/

theorem filterMap_isSome_forall {α β : Type} (f : α → Option β) :
    ∀ (l : List α), (∀ x ∈ l, (f x).isSome) →
    List.Forall₂ (fun x y => f x = some y) l (l.filterMap f) := by
  intro l
  induction l with
  | nil => intro _; simp [List.filterMap_nil]
  | cons a t ih =>
    intro h
    obtain ⟨b, hb⟩ := Option.isSome_iff_exists.mp (h a (List.mem_cons_self a t))
    rw [List.filterMap_cons, hb]
    exact List.Forall₂.cons hb (ih (fun x hx => h x (List.mem_cons_of_mem a hx)))

theorem pathEdgesB_get (g : Graph) :
    ∀ (c : List String), pathEdgesB g c = true →
    ∀ i, i + 1 < c.length →
    g.edges.any (edgeKeyMatches (c.getD i "") (c.getD (i+1) "")) = true := by
  intro c
  induction c with
  | nil => intro _ i hi; simp at hi
  | cons a t ih =>
    intro hp i hi
    match t, hp, hi with
    | [], _, hi => simp at hi
    | b :: r, hp, hi =>
      rw [pathEdgesB, Bool.and_eq_true] at hp
      match i with
      | 0 => simpa [List.getD_cons_zero, List.getD_cons_succ] using hp.1
      | j + 1 =>
        simp only [List.getD_cons_succ]
        exact ih hp.2 j (by simpa [List.length_cons] using hi)

theorem isSimpleCycleB_parts {g : Graph} {c : List String}
    (h : isSimpleCycleB g c = true) :
    c ≠ [] ∧ c.Nodup ∧ pathEdgesB g c = true ∧
    g.edges.any (edgeKeyMatches (c.getLast?.getD "") (c.head?.getD "")) = true := by
  unfold isSimpleCycleB at h
  simp only [Bool.and_eq_true] at h
  obtain ⟨⟨⟨hne, hnd⟩, hpath⟩, hclose⟩ := h
  refine ⟨by simpa using hne, of_decide_eq_true hnd, hpath, ?_⟩
  match hl : c.getLast?, hh : c.head? with
  | some l, some h' =>
    rw [hl, hh] at hclose
    simpa [hl, hh] using hclose
  | none, _ =>
    rw [hl] at hclose
    cases hclose
  | some l, none =>
    rw [hl, hh] at hclose
    cases hclose

theorem cycle_edges_exist (g : Graph) (c : List String)
    (hcyc : isSimpleCycleB g c = true) :
    ∀ i ∈ List.range c.length,
    ((g.getEdgeData (c.getD i "") (c.getD ((i+1) % c.length) "")).map
      (·.transaction_id)).isSome := by
  obtain ⟨hne, hnd, hpath, hclose⟩ := isSimpleCycleB_parts hcyc
  intro i hi
  rw [List.mem_range] at hi
  rw [show ∀ (o : Option EdgeEntry),
      (o.map (·.transaction_id)).isSome = o.isSome from fun o => by cases o <;> rfl]
  have hfind : ∀ u v, g.edges.any (edgeKeyMatches u v) = true →
      (g.getEdgeData u v).isSome := by
    intro u v huv
    rw [Graph.getEdgeData, List.find?_isSome]
    rw [List.any_eq_true] at huv
    exact huv
  by_cases hlast : i + 1 = c.length
  · apply hfind
    have hmod : (i + 1) % c.length = 0 := by rw [hlast, Nat.mod_self]
    rw [hmod]
    have hi' : i = c.length - 1 := by omega
    have hgl : c.getD i "" = c.getLast?.getD "" := by
      rw [hi', List.getD_eq_getElem?_getD, List.getLast?_eq_getElem?]
    have hgh : c.getD 0 "" = c.head?.getD "" := by
      rw [List.getD_eq_getElem?_getD, List.head?_eq_getElem?]
    rw [hgl, hgh]
    exact hclose
  · have hmod : (i + 1) % c.length = i + 1 := Nat.mod_eq_of_lt (by omega)
    rw [hmod]
    exact hfind _ _ (pathEdgesB_get g c hpath i (by omega))

theorem cycleTransactionIds_spec (g : Graph) (c : List String)
    (hcyc : isSimpleCycleB g c = true) :
    (cycleTransactionIds g c).length = c.length ∧
    List.Forall₂ (fun i tid => ∃ ed,
        g.getEdgeData (c.getD i "") (c.getD ((i+1) % c.length) "") = some ed ∧
        ed.transaction_id = tid)
      (List.range c.length) (cycleTransactionIds g c) := by
  have hall := cycle_edges_exist g c hcyc
  have hfa := filterMap_isSome_forall
    (fun i => (g.getEdgeData (c.getD i "") (c.getD ((i+1) % c.length) "")).map
      (·.transaction_id)) (List.range c.length) hall
  have hlen : (cycleTransactionIds g c).length = c.length := by
    rw [cycleTransactionIds]
    have := hfa.length_eq
    rw [List.length_range] at this
    exact this.symm
  refine ⟨hlen, ?_⟩
  rw [cycleTransactionIds]
  refine List.Forall₂.imp ?_ hfa
  intro i tid h
  simp only [Option.map_eq_some'] at h
  obtain ⟨ed, hed, htid⟩ := h
  exact ⟨ed, hed, htid⟩

theorem mem_simpleCyclesCanonical {g : Graph} {c : List String}
    (hc : c ∈ simpleCyclesCanonical g) : isSimpleCycleB g c = true := by
  unfold simpleCyclesCanonical at hc
  rw [List.mem_filter, Bool.and_eq_true] at hc
  exact hc.2.1

theorem filterMap_map_eq_filter {α β : Type} (F : α → Option β) (h : β → α)
    (q : α → Bool) :
    ∀ (l : List α), (∀ a ∈ l, (F a).map h = if q a then some a else none) →
    (l.filterMap F).map h = l.filter q := by
  intro l
  induction l with
  | nil => intro _; rfl
  | cons a t ih =>
    intro hpoint
    have hp := hpoint a (List.mem_cons_self a t)
    have hrest := ih (fun x hx => hpoint x (List.mem_cons_of_mem a hx))
    rw [List.filterMap_cons, List.filter_cons]
    cases hF : F a with
    | none =>
      rw [hF, Option.map_none'] at hp
      have hq : q a = false := by
        cases hq : q a
        · rfl
        · rw [hq, if_pos rfl] at hp
          cases hp
      rw [hq]
      simpa using hrest
    | some b =>
      rw [hF, Option.map_some'] at hp
      have hq : q a = true := by
        cases hq : q a
        · rw [hq] at hp
          simp at hp
        · rfl
      rw [hq] at hp ⊢
      rw [if_pos rfl] at hp
      injection hp with hp
      simp only [List.map_cons, hp, hrest, if_pos rfl]
      simp

/-- Claim C4: circular detection emits one pattern per simple directed
cycle of length at least `min_cycle_length`, whose entities are the cycle,
with one transaction id per consecutive edge (closing edge included),
confidence `min(1, len/10)` and risk CRITICAL when confidence exceeds 0.8,
else HIGH. -/
theorem detect_circular_spec (s : GState) (min_cycle_length : ℕ) :
    (detect_circular_transactions s min_cycle_length).map (·.entities_involved)
      = (simpleCyclesCanonical s.graph).filter
          (fun c => decide (min_cycle_length ≤ c.length)) ∧
    (∀ p ∈ detect_circular_transactions s min_cycle_length,
      p.pattern_type = "circular_transactions" ∧
      min_cycle_length ≤ p.entities_involved.length ∧
      p.entities_involved ∈ simpleCyclesCanonical s.graph ∧
      p.confidence_score = min 1 ((p.entities_involved.length : ℚ) / 10) ∧
      p.risk_level = (if 0.8 < min 1 ((p.entities_involved.length : ℚ) / 10)
         then RiskLevel.critical else RiskLevel.high) ∧
      p.transactions_involved.length = p.entities_involved.length ∧
      List.Forall₂ (fun i tid => ∃ ed, s.graph.getEdgeData
          (p.entities_involved.getD i "")
          (p.entities_involved.getD ((i+1) % p.entities_involved.length) "")
          = some ed ∧ ed.transaction_id = tid)
        (List.range p.entities_involved.length) p.transactions_involved) := by
  have hne_tx : ∀ c, isSimpleCycleB s.graph c = true →
      (cycleTransactionIds s.graph c).isEmpty = false := by
    intro c hc
    have hlen := (cycleTransactionIds_spec s.graph c hc).1
    have hcne := (isSimpleCycleB_parts hc).1
    cases hx : cycleTransactionIds s.graph c with
    | nil =>
      exfalso
      rw [hx] at hlen
      exact hcne (List.length_eq_zero.mp hlen.symm)
    | cons a t => rfl
  constructor
  · unfold detect_circular_transactions
    apply filterMap_map_eq_filter
    intro c hcmem
    have hc := mem_simpleCyclesCanonical hcmem
    by_cases hmin : min_cycle_length ≤ c.length
    · rw [if_pos hmin]
      simp only [hne_tx c hc, Bool.false_eq_true, if_false]
      simp [hmin]
    · rw [if_neg hmin]
      simp [hmin]
  · intro p hp
    unfold detect_circular_transactions at hp
    rw [List.mem_filterMap] at hp
    obtain ⟨c, hcmem, hfc⟩ := hp
    have hc := mem_simpleCyclesCanonical hcmem
    by_cases hmin : min_cycle_length ≤ c.length
    · rw [if_pos hmin] at hfc
      simp only [hne_tx c hc, Bool.false_eq_true, if_false] at hfc
      injection hfc with hfc
      subst hfc
      obtain ⟨hlen, hfa⟩ := cycleTransactionIds_spec s.graph c hc
      exact ⟨rfl, hmin, hcmem, rfl, rfl, hlen, hfa⟩
    · rw [if_neg hmin] at hfc
      cases hfc

theorem detect_circular_spec_witness :
    (detect_circular_transactions c4State 3).map
        (fun p => (p.entities_involved, p.transactions_involved,
                   p.confidence_score, p.risk_level))
      = [(["A", "B", "C"], ["TAB", "TBC", "TCA"], 0.3, RiskLevel.high)] := by
  decide

/-! ## Claim C6: comprehensive entity risk score -/

/-- Claim C6: for a stored entity, the derived score is the stored score
plus `min(0.3, 0.05 × highRiskConnections)` plus
`min(0.3, 0.10 × relatedSARs)`, clamped to 1.0, where connections are
depth-2 reachable entities with stored risk above 0.5 and related SARs
name any entity within depth-2 reachability (the entity included).  The
computation is a pure function of the store (it performs no mutation). -/
theorem compute_entity_risk_score_spec (s : GState) (entity_id : String)
    (e : Entity) (hcl : ClosedGraph s.graph)
    (he : lookupA s.entities entity_id = some e) :
    compute_entity_risk_score s entity_id
      = min 1 (e.risk_score
          + min 0.3 ((highRiskConnCount s entity_id : ℚ) * 0.05)
          + min 0.3 ((relatedSarCount s entity_id : ℚ) * 0.1)) := by
  obtain ⟨hmem_iff, hnodup, hempty⟩ := bfs_characterization s.graph hcl entity_id 2
  have hsub : ∀ v ∈ find_connected_entities s.graph entity_id 2,
      v ∈ s.graph.nodes := by
    intro v hv
    have h2 := (hmem_iff v).mp hv
    by_cases hid : entity_id ∈ s.graph.nodes
    · exact reachB_mem_nodes hcl hid 2 v h2.2
    · rw [hempty hid] at hv
      cases hv
  have hN : (find_connected_entities s.graph entity_id 2).countP (highRiskStored s)
      = highRiskConnCount s entity_id := by
    rw [List.countP_eq_length_filter, highRiskConnCount]
    have hnd : ((find_connected_entities s.graph entity_id 2).filter
        (highRiskStored s)).Nodup := hnodup.filter _
    rw [← List.toFinset_card_of_nodup hnd]
    congr 1
    ext v
    rw [List.mem_toFinset, List.mem_filter, Finset.mem_filter, List.mem_toFinset]
    constructor
    · rintro ⟨hvc, hvp⟩
      have h2 := (hmem_iff v).mp hvc
      exact ⟨hsub v hvc, h2.1, h2.2, hvp⟩
    · rintro ⟨hvn, hne, hreach, hp⟩
      exact ⟨(hmem_iff v).mpr ⟨hne, hreach⟩, hp⟩
  have hiffx : ∀ x, (x ∈ entity_id :: find_connected_entities s.graph entity_id 2)
      ↔ reachB s.graph entity_id 2 x = true := by
    intro x
    rw [List.mem_cons]
    constructor
    · rintro (rfl | hx)
      · exact reachB_self _ _ _
      · exact ((hmem_iff x).mp hx).2
    · intro hr
      by_cases hx : x = entity_id
      · exact Or.inl hx
      · exact Or.inr ((hmem_iff x).mpr ⟨hx, hr⟩)
  have hM : (find_related_sars s entity_id).length = relatedSarCount s entity_id := by
    rw [find_related_sars, relatedSarCount, List.countP_eq_length_filter]
    congr 1
    apply List.filter_congr
    intro sar _
    have hbool : ∀ (a b : Bool), (a = true ↔ b = true) → a = b := by decide
    apply hbool
    simp only [List.any_eq_true]
    constructor
    · rintro ⟨x, hx, hcont⟩
      rw [List.elem_iff] at hcont
      exact ⟨x, hx, (hiffx x).mp hcont⟩
    · rintro ⟨x, hx, hr⟩
      exact ⟨x, hx, List.elem_iff.mpr ((hiffx x).mpr hr)⟩
  unfold compute_entity_risk_score
  rw [he]
  simp only []
  rw [hN, hM]

theorem compute_entity_risk_score_spec_witness :
    compute_entity_risk_score c6State "A" = 0.35 ∧
    highRiskConnCount c6State "A" = 1 ∧
    relatedSarCount c6State "A" = 1 ∧
    (lookupA c6State.entities "A").map (·.risk_score) = some 0.2 := by
  have h := compute_entity_risk_score_spec c6State "A"
    ⟨"A", "A", "person", 0.2, .low⟩ (by decide) (by decide)
  refine ⟨?_, by decide, by decide, by decide⟩
  rw [h]
  decide

/-! ## Claim C8: cosine similarity of narrative embeddings -/

theorem embDot_comm (a b : Emb) : embDot a b = embDot b a := by
  unfold embDot; ring

theorem embNormSq_nonneg (a : Emb) : 0 ≤ embNormSq a := by
  unfold embNormSq embDot
  nlinarith [sq_nonneg a.structuring, sq_nonneg a.money_laundering,
    sq_nonneg a.fraud, sq_nonneg a.terrorist_financing,
    sq_nonneg a.unusual_transaction]

theorem embDot_sq_le (a b : Emb) :
    embDot a b ^ 2 ≤ embNormSq a * embNormSq b := by
  unfold embNormSq embDot
  nlinarith [sq_nonneg (a.structuring * b.money_laundering - a.money_laundering * b.structuring),
    sq_nonneg (a.structuring * b.fraud - a.fraud * b.structuring),
    sq_nonneg (a.structuring * b.terrorist_financing - a.terrorist_financing * b.structuring),
    sq_nonneg (a.structuring * b.unusual_transaction - a.unusual_transaction * b.structuring),
    sq_nonneg (a.money_laundering * b.fraud - a.fraud * b.money_laundering),
    sq_nonneg (a.money_laundering * b.terrorist_financing - a.terrorist_financing * b.money_laundering),
    sq_nonneg (a.money_laundering * b.unusual_transaction - a.unusual_transaction * b.money_laundering),
    sq_nonneg (a.fraud * b.terrorist_financing - a.terrorist_financing * b.fraud),
    sq_nonneg (a.fraud * b.unusual_transaction - a.unusual_transaction * b.fraud),
    sq_nonneg (a.terrorist_financing * b.unusual_transaction - a.unusual_transaction * b.terrorist_financing)]

theorem keywordFraction_nonneg (kws : List String) (tl : String) :
    0 ≤ keywordFraction kws tl := by
  unfold keywordFraction
  positivity

theorem embDot_embed_nonneg (t1 t2 : String) :
    0 ≤ embDot (create_simple_embedding t1) (create_simple_embedding t2) := by
  have h1 := keywordFraction_nonneg kwStructuring (pyLower t1)
  have h2 := keywordFraction_nonneg kwMoneyLaundering (pyLower t1)
  have h3 := keywordFraction_nonneg kwFraud (pyLower t1)
  have h4 := keywordFraction_nonneg kwTerroristFinancing (pyLower t1)
  have h5 := keywordFraction_nonneg kwUnusualTransaction (pyLower t1)
  have g1 := keywordFraction_nonneg kwStructuring (pyLower t2)
  have g2 := keywordFraction_nonneg kwMoneyLaundering (pyLower t2)
  have g3 := keywordFraction_nonneg kwFraud (pyLower t2)
  have g4 := keywordFraction_nonneg kwTerroristFinancing (pyLower t2)
  have g5 := keywordFraction_nonneg kwUnusualTransaction (pyLower t2)
  unfold embDot create_simple_embedding
  simp only []
  nlinarith [mul_nonneg h1 g1, mul_nonneg h2 g2, mul_nonneg h3 g3,
    mul_nonneg h4 g4, mul_nonneg h5 g5]

theorem embNormSq_pos_of_ne {a : Emb} (h : a ≠ embZero) : 0 < embNormSq a := by
  rcases lt_or_eq_of_le (embNormSq_nonneg a) with hlt | heq
  · exact hlt
  · exfalso
    apply h
    have hsum : a.structuring * a.structuring + a.money_laundering * a.money_laundering
        + a.fraud * a.fraud + a.terrorist_financing * a.terrorist_financing
        + a.unusual_transaction * a.unusual_transaction = 0 := by
      have : embNormSq a = 0 := heq.symm
      unfold embNormSq embDot at this
      linarith [this]
    have e1 : a.structuring = 0 := by
      nlinarith [sq_nonneg a.structuring, sq_nonneg a.money_laundering,
        sq_nonneg a.fraud, sq_nonneg a.terrorist_financing,
        sq_nonneg a.unusual_transaction]
    have e2 : a.money_laundering = 0 := by
      nlinarith [sq_nonneg a.structuring, sq_nonneg a.money_laundering,
        sq_nonneg a.fraud, sq_nonneg a.terrorist_financing,
        sq_nonneg a.unusual_transaction]
    have e3 : a.fraud = 0 := by
      nlinarith [sq_nonneg a.structuring, sq_nonneg a.money_laundering,
        sq_nonneg a.fraud, sq_nonneg a.terrorist_financing,
        sq_nonneg a.unusual_transaction]
    have e4 : a.terrorist_financing = 0 := by
      nlinarith [sq_nonneg a.structuring, sq_nonneg a.money_laundering,
        sq_nonneg a.fraud, sq_nonneg a.terrorist_financing,
        sq_nonneg a.unusual_transaction]
    have e5 : a.unusual_transaction = 0 := by
      nlinarith [sq_nonneg a.structuring, sq_nonneg a.money_laundering,
        sq_nonneg a.fraud, sq_nonneg a.terrorist_financing,
        sq_nonneg a.unusual_transaction]
    cases a with
    | mk s m f tf ut =>
      subst e1
      subst e2
      subst e3
      subst e4
      subst e5
      rfl

/-- Claim C8: over narrative embeddings, cosine similarity is symmetric,
lies in [0, 1], equals 1 on any non-zero embedding against itself, and is
0 whenever either embedding has zero norm (no division by zero occurs). -/
theorem cosine_similarity_spec (t1 t2 : String) :
    cosine_similarity (create_simple_embedding t1) (create_simple_embedding t2)
      = cosine_similarity (create_simple_embedding t2) (create_simple_embedding t1) ∧
    0 ≤ cosine_similarity (create_simple_embedding t1) (create_simple_embedding t2) ∧
    cosine_similarity (create_simple_embedding t1) (create_simple_embedding t2) ≤ 1 ∧
    (create_simple_embedding t1 ≠ embZero →
      cosine_similarity (create_simple_embedding t1) (create_simple_embedding t1) = 1) ∧
    ((embNormSq (create_simple_embedding t1) = 0 ∨
        embNormSq (create_simple_embedding t2) = 0) →
      cosine_similarity (create_simple_embedding t1) (create_simple_embedding t2) = 0) := by
  refine ⟨?_, ?_, ?_, ?_, ?_⟩
  · unfold cosine_similarity
    by_cases hg : embNormSq (create_simple_embedding t1) = 0 ∨
        embNormSq (create_simple_embedding t2) = 0
    · rw [if_pos hg, if_pos hg.symm]
    · rw [if_neg hg, if_neg (fun hc => hg hc.symm)]
      rw [embDot_comm, mul_comm]
  · unfold cosine_similarity
    by_cases hg : embNormSq (create_simple_embedding t1) = 0 ∨
        embNormSq (create_simple_embedding t2) = 0
    · rw [if_pos hg]
    · rw [if_neg hg]
      push_neg at hg
      apply div_nonneg
      · exact_mod_cast embDot_embed_nonneg t1 t2
      · apply mul_nonneg <;> exact Real.sqrt_nonneg _
  · unfold cosine_similarity
    by_cases hg : embNormSq (create_simple_embedding t1) = 0 ∨
        embNormSq (create_simple_embedding t2) = 0
    · rw [if_pos hg]; norm_num
    · rw [if_neg hg]
      push_neg at hg
      have hA : (0:ℝ) < (embNormSq (create_simple_embedding t1) : ℝ) := by
        have := lt_of_le_of_ne (embNormSq_nonneg (create_simple_embedding t1))
          (Ne.symm hg.1)
        exact_mod_cast this
      have hB : (0:ℝ) < (embNormSq (create_simple_embedding t2) : ℝ) := by
        have := lt_of_le_of_ne (embNormSq_nonneg (create_simple_embedding t2))
          (Ne.symm hg.2)
        exact_mod_cast this
      have hDnn : (0:ℝ) ≤ (embDot (create_simple_embedding t1)
          (create_simple_embedding t2) : ℝ) := by
        exact_mod_cast embDot_embed_nonneg t1 t2
      rw [div_le_one (by positivity)]
      have hD2 : ((embDot (create_simple_embedding t1)
          (create_simple_embedding t2) : ℝ))^2
          ≤ (embNormSq (create_simple_embedding t1) : ℝ)
            * (embNormSq (create_simple_embedding t2) : ℝ) := by
        exact_mod_cast embDot_sq_le (create_simple_embedding t1)
          (create_simple_embedding t2)
      calc (embDot (create_simple_embedding t1) (create_simple_embedding t2) : ℝ)
          = Real.sqrt (((embDot (create_simple_embedding t1)
              (create_simple_embedding t2) : ℝ))^2) := (Real.sqrt_sq hDnn).symm
        _ ≤ Real.sqrt ((embNormSq (create_simple_embedding t1) : ℝ)
              * (embNormSq (create_simple_embedding t2) : ℝ)) :=
            Real.sqrt_le_sqrt hD2
        _ = Real.sqrt (embNormSq (create_simple_embedding t1) : ℝ)
              * Real.sqrt (embNormSq (create_simple_embedding t2) : ℝ) :=
            Real.sqrt_mul (le_of_lt hA) _
  · intro hne
    have hApos := embNormSq_pos_of_ne hne
    unfold cosine_similarity
    rw [if_neg (by push_neg; exact ⟨ne_of_gt hApos, ne_of_gt hApos⟩)]
    rw [show embDot (create_simple_embedding t1) (create_simple_embedding t1)
        = embNormSq (create_simple_embedding t1) from rfl]
    have hAnn : (0:ℝ) ≤ (embNormSq (create_simple_embedding t1) : ℝ) := by
      exact_mod_cast embNormSq_nonneg (create_simple_embedding t1)
    rw [Real.mul_self_sqrt hAnn]
    apply div_self
    exact_mod_cast ne_of_gt hApos
  · intro h
    unfold cosine_similarity
    rw [if_pos h]

theorem cosine_similarity_spec_witness :
    create_simple_embedding "wash" ≠ embZero ∧
    cosine_similarity (create_simple_embedding "wash")
      (create_simple_embedding "wash") = 1 ∧
    embNormSq (create_simple_embedding "") = 0 ∧
    cosine_similarity (create_simple_embedding "")
      (create_simple_embedding "wash") = 0 := by
  have h := cosine_similarity_spec "wash" "wash"
  have h2 := cosine_similarity_spec "" "wash"
  exact ⟨by decide, h.2.2.2.1 (by decide), by decide,
    h2.2.2.2.2 (Or.inl (by decide))⟩
